import Mathlib

/-!
Verification development for the GitHub project-manager MCP adapter.

The definitions below are a shallow embedding of the Python source:

* `src/infrastructure/github/github_error_handler.py` (`GitHubErrorHandler`)
* `src/infrastructure/github/repositories/base_repository.py` (`with_retry`)
* `src/infrastructure/github/util/graphql_client.py` (`GraphQLClient.execute`)
* `src/infrastructure/github/repositories/github_milestone_repository.py`
* `src/infrastructure/github/repositories/github_sprint_repository.py`
* `src/infrastructure/github/repositories/github_project_repository.py`
* `src/infrastructure/tools/tool_validator.py` (`ToolValidator.validate`)
* `src/infrastructure/tools/tool_handlers.py` (`execute_tool`)

Machine integers are modelled as `Int`/`Nat` (Python integers are unbounded),
HTTP header values that the code feeds to `int(...)` are modelled at the
integer level, fallible code returns `Except`/`Option`.
-/

namespace GhPm

/-- Python truthiness of an optional string (`if context` in the source):
`None` and the empty string are falsy. -/
def strTruthy : Option String → Bool
  | none => false
  | some s => !s.isEmpty

/-! ## Error classifier (`github_error_handler.py`) -/

/-- An HTTP response attached to a raised error, as consulted by
`GitHubErrorHandler`: only its `headers` mapping is ever read.  Header
values that the code passes to `int(...)` are modelled as integers. -/
structure PyResponse where
  headers : List (String × Int)
deriving Repr, DecidableEq

/-- A raised error object as seen by `GitHubErrorHandler.handle_error`:
`str(error)` is `message`; `status` is present iff `hasattr(error, 'status')`;
`response` is present iff `hasattr(error, 'response')` and the response has
headers. -/
structure PyErr where
  message : String
  status : Option Int := none
  response : Option PyResponse := none
deriving Repr, DecidableEq

/-- The closed taxonomy of domain errors (`src/domain/errors.py`) that
`handle_error` can return. -/
inductive DomainError where
  | unauthorized (message : String)
  | rateLimit (message : String) (resetTime : Option Int)
  | notFound (message : String)
  | githubAPI (message : String) (status : Option Int) (response : Option PyResponse)
deriving Repr, DecidableEq

/-- `f" ({context})" if context else ""` from `handle_error`. -/
def contextStr (context : Option String) : String :=
  match context with
  | some c => if c.isEmpty then "" else " (" ++ c ++ ")"
  | none => ""

/-- `GitHubErrorHandler.handle_error` (github_error_handler.py lines 15-55),
translated branch by branch. -/
def handle_error (error : PyErr) (context : Option String) : DomainError :=
  let ctx := contextStr context
  match error.status with
  | some status =>
    if status = 401 then
      .unauthorized ("Unauthorized access to GitHub API" ++ ctx)
    else if status = 403 then
      match error.response with
      | some resp =>
        if (resp.headers.lookup "x-ratelimit-remaining" = some 0 : Bool) then
          .rateLimit ("GitHub API rate limit exceeded" ++ ctx)
            (resp.headers.lookup "x-ratelimit-reset")
        else
          .unauthorized ("Forbidden access to GitHub API" ++ ctx)
      | none => .unauthorized ("Forbidden access to GitHub API" ++ ctx)
    else if status = 404 then
      .notFound ("Resource not found on GitHub" ++ ctx)
    else if status = 429 then
      .rateLimit ("GitHub API rate limit exceeded" ++ ctx)
        (match error.response with
         | some resp => resp.headers.lookup "x-ratelimit-reset"
         | none => none)
    else
      .githubAPI ("GitHub API error (status " ++ toString status ++ "): "
          ++ error.message ++ ctx)
        (some status) error.response
  | none =>
    .githubAPI ("GitHub API error: " ++ error.message ++ ctx) none none

/-- ASCII lowercasing of a string (`str.lower()` on the ASCII inputs the
heuristics inspect). -/
def pyLower (s : String) : String :=
  ⟨s.data.map Char.toLower⟩

/-- First occurrence of the (nonempty) pattern `sep` inside `l`: returns the
part before the occurrence and the part after it (`str.split(sep, 1)`). -/
def splitFirst (sep : List Char) : List Char → Option (List Char × List Char)
  | [] => none
  | c :: t =>
    if sep.isPrefixOf (c :: t) then some ([], (c :: t).drop sep.length)
    else
      match splitFirst sep t with
      | some (p, r) => some (c :: p, r)
      | none => none

/-- Python's `pat in s` substring test. -/
def containsSub (pat : String) (s : String) : Bool :=
  (splitFirst pat.data s.data).isSome

/-- `GitHubErrorHandler.is_retryable_error` (lines 57-67). -/
def is_retryable_error (error : PyErr) : Bool :=
  match error.status with
  | some status => status = 429 || status = 500 || status = 502 || status = 503 || status = 504
  | none =>
    let lower := pyLower error.message
    containsSub "timeout" lower || containsSub "connection" lower
      || containsSub "network" lower || containsSub "econnreset" lower

/-- `GitHubErrorHandler.calculate_retry_delay` (lines 69-87).  `reset` and
`retryAfter` are the integer values of the `x-ratelimit-reset` /
`retry-after` headers when present; `now` is `int(time.time())`. -/
def calculate_retry_delay (reset retryAfter : Option Int) (now : Int) : Int :=
  let delay : Int := 1000
  let delay :=
    match reset with
    | some r => if r > now then (r - now) * 1000 else delay
    | none => delay
  let delay :=
    match retryAfter with
    | some ra => max delay (ra * 1000)
    | none => delay
  min delay 60000

end GhPm

namespace GhPm

/-- The rate-limit signal of the 403 branch: a response is attached and its
`x-ratelimit-remaining` header is present with value `0`. -/
def rateLimitSignal (error : PyErr) : Prop :=
  ∃ resp, error.response = some resp ∧
    resp.headers.lookup "x-ratelimit-remaining" = some 0

instance (error : PyErr) : Decidable (rateLimitSignal error) := by
  unfold rateLimitSignal
  cases error.response with
  | none => exact .isFalse (by simp)
  | some r => exact decidable_of_iff (r.headers.lookup "x-ratelimit-remaining" = some 0) (by simp)

/-- The `x-ratelimit-reset` header of the attached response, if any. -/
def resetHeaderOf (error : PyErr) : Option Int :=
  match error.response with
  | some resp => resp.headers.lookup "x-ratelimit-reset"
  | none => none

end GhPm

namespace GhPm

/-- C5: `handle_error` classifies 401 and signal-less 403 as unauthorized,
403-with-exhausted-rate-limit and 429 as rate-limited carrying the
`x-ratelimit-reset` header, 404 as not-found, any other numeric status as a
`GitHubAPIError` carrying status and raw response, and errors without a
`status` attribute as a generic wrapped `GitHubAPIError`. -/
theorem handle_error_classifies (e : PyErr) (ctx : Option String) :
    (e.status = some 401 → ∃ m, handle_error e ctx = .unauthorized m) ∧
    (e.status = some 403 → ¬ rateLimitSignal e →
      ∃ m, handle_error e ctx = .unauthorized m) ∧
    (e.status = some 403 → rateLimitSignal e →
      ∃ m, handle_error e ctx = .rateLimit m (resetHeaderOf e)) ∧
    (e.status = some 429 →
      ∃ m, handle_error e ctx = .rateLimit m (resetHeaderOf e)) ∧
    (e.status = some 404 → ∃ m, handle_error e ctx = .notFound m) ∧
    (∀ s : Int, e.status = some s → s ≠ 401 → s ≠ 403 → s ≠ 404 → s ≠ 429 →
      ∃ m, handle_error e ctx = .githubAPI m (some s) e.response) ∧
    (e.status = none → ∃ m, handle_error e ctx = .githubAPI m none none) := by
  refine ⟨?_, ?_, ?_, ?_, ?_, ?_, ?_⟩
  · intro h
    refine ⟨"Unauthorized access to GitHub API" ++ contextStr ctx, ?_⟩
    simp [handle_error, h]
  · intro h hsig
    refine ⟨"Forbidden access to GitHub API" ++ contextStr ctx, ?_⟩
    cases hr : e.response with
    | none => simp [handle_error, h, hr]
    | some resp =>
      have hne : ¬ resp.headers.lookup "x-ratelimit-remaining" = some 0 := by
        intro hc
        exact hsig ⟨resp, hr, hc⟩
      simp [handle_error, h, hr, hne]
  · rintro h ⟨resp, hr, hv⟩
    refine ⟨"GitHub API rate limit exceeded" ++ contextStr ctx, ?_⟩
    simp [handle_error, h, hr, hv, resetHeaderOf]
  · intro h
    refine ⟨"GitHub API rate limit exceeded" ++ contextStr ctx, ?_⟩
    cases hr : e.response with
    | none => simp [handle_error, h, hr, resetHeaderOf]
    | some resp => simp [handle_error, h, hr, resetHeaderOf]
  · intro h
    refine ⟨"Resource not found on GitHub" ++ contextStr ctx, ?_⟩
    simp [handle_error, h]
  · intro s h h1 h3 h4 h9
    refine ⟨"GitHub API error (status " ++ toString s ++ "): "
        ++ e.message ++ contextStr ctx, ?_⟩
    simp [handle_error, h, h1, h3, h4, h9]
  · intro h
    refine ⟨"GitHub API error: " ++ e.message ++ contextStr ctx, ?_⟩
    simp [handle_error, h]

/-- Witness for `handle_error_classifies` at concrete inputs. -/
theorem handle_error_classifies_witness :
    ∃ m, handle_error ⟨"boom", some 404, none⟩ (some "ctx") = .notFound m := by
  have h := handle_error_classifies ⟨"boom", some 404, none⟩ (some "ctx")
  exact h.2.2.2.2.1 rfl

end GhPm

namespace GhPm

/-! ## Retry executor (`base_repository.py` lines 75-108) -/

/-- The outcome of one call to the wrapped `operation`: it either returns a
value or raises an error. -/
inductive AttemptOutcome (α : Type) where
  | ok (v : α)
  | err (e : PyErr)

/-- What `with_retry` does overall: `returned` models a normal return,
`raised` a raised domain error, and `noneReturned` the implicit `return
None` reached only when the attempt budget is zero. -/
inductive RetryOutcome (α : Type) where
  | returned (v : α)
  | raised (e : DomainError)
  | noneReturned
deriving DecidableEq

/-- A trace of one `with_retry` execution: its outcome, the backoff sleeps
performed (in milliseconds, in order), and the number of attempts made. -/
structure RetryTrace (α : Type) where
  outcome : RetryOutcome α
  sleeps : List Int
  attempts : Nat

/-- The loop body of `with_retry`: `total` is `self._retry_attempts`,
`remaining` the number of loop iterations left (so the current attempt
index is `total - remaining`).  Mirrors lines 83-108 of
`base_repository.py`: a non-retryable error or the last attempt raises the
classified error (tagging the context with `" (max retries exceeded)"` on
the last attempt, where Python renders a `None` context as `"None"`);
otherwise the loop sleeps `1000 * 2^attempt` ms and retries. -/
def withRetryAux {α : Type} (outcomes : Nat → AttemptOutcome α)
    (context : Option String) (total : Nat) : Nat → RetryTrace α
  | 0 => ⟨.noneReturned, [], 0⟩
  | remaining + 1 =>
    let attempt := total - (remaining + 1)
    match outcomes attempt with
    | .ok v => ⟨.returned v, [], 1⟩
    | .err e =>
      let isLast := remaining = 0
      if ¬ is_retryable_error e ∨ isLast then
        let ctx :=
          if isLast then
            some ((match context with | some c => c | none => "None")
              ++ " (max retries exceeded)")
          else context
        ⟨.raised (handle_error e ctx), [], 1⟩
      else
        let rest := withRetryAux outcomes context total remaining
        ⟨rest.outcome, 1000 * 2 ^ attempt :: rest.sleeps, rest.attempts + 1⟩

/-- `BaseGitHubRepository.with_retry` with the fixed attempt budget
`self._retry_attempts = 3`. -/
def with_retry {α : Type} (outcomes : Nat → AttemptOutcome α)
    (context : Option String) : RetryTrace α :=
  withRetryAux outcomes context 3 3

/-- `withRetryAux` never makes more attempts than it has iterations left. -/
theorem withRetryAux_attempts_le {α : Type} (outcomes : Nat → AttemptOutcome α)
    (context : Option String) (total : Nat) :
    ∀ remaining, (withRetryAux outcomes context total remaining).attempts ≤ remaining := by
  intro remaining
  induction remaining with
  | zero => simp [withRetryAux]
  | succ n ih =>
    simp only [withRetryAux]
    cases outcomes (total - (n + 1)) with
    | ok v => simp
    | err e =>
      dsimp only
      split
      · simp
      · simp only
        omega

end GhPm

namespace GhPm

/-- C1: the retry executor.  (a) If the operation fails twice with
503-status errors and then succeeds, `with_retry` returns the success value
after exactly the two backoff sleeps `1000` ms and `2000` ms
(`1000 * 2^attempt`).  (b) If the first attempt fails with a 404-status
error, `with_retry` raises the classified error immediately, with zero
sleeps, after one attempt.  (c) At most 3 attempts are ever made.  (d) When
all three attempts fail retryably (e.g. with 503), the error raised on the
final attempt is the classification of the last error under the context
label tagged with `" (max retries exceeded)"`. -/
theorem with_retry_policy {α : Type} (e1 e2 e3 e404 : PyErr) (v : α)
    (c : String) (outcomes : Nat → AttemptOutcome α)
    (h1 : e1.status = some 503) (h2 : e2.status = some 503)
    (h404 : e404.status = some 404) :
    (with_retry (fun n => if n = 0 then .err e1 else if n = 1 then .err e2 else .ok v)
        (some c) = ⟨.returned v, [1000, 2000], 3⟩) ∧
    (∀ rest : Nat → AttemptOutcome α,
      rest 0 = .err e404 →
      with_retry rest (some c) =
        ⟨.raised (handle_error e404 (some c)), [], 1⟩) ∧
    ((with_retry outcomes (some c)).attempts ≤ 3) ∧
    (with_retry (α := α)
        (fun n => if n = 0 then .err e1 else if n = 1 then .err e2 else .err e3)
        (some c) =
      ⟨.raised (handle_error e3 (some (c ++ " (max retries exceeded)"))), [1000, 2000], 3⟩) := by
  have hr1 : is_retryable_error e1 = true := by simp [is_retryable_error, h1]
  have hr2 : is_retryable_error e2 = true := by simp [is_retryable_error, h2]
  have hn404 : is_retryable_error e404 = false := by simp [is_retryable_error, h404]
  refine ⟨?_, ?_, ?_, ?_⟩
  · simp [with_retry, withRetryAux, hr1, hr2]
  · intro rest hrest
    simp [with_retry, withRetryAux, hrest, hn404]
  · exact withRetryAux_attempts_le outcomes (some c) 3 3
  · simp [with_retry, withRetryAux, hr1, hr2]

/-- Witness for `with_retry_policy` at concrete inputs. -/
theorem with_retry_policy_witness :
    with_retry (fun n => if n = 0 then .err ⟨"e1", some 503, none⟩
        else if n = 1 then .err ⟨"e2", some 503, none⟩ else .ok (42 : Nat))
      (some "op") = ⟨.returned 42, [1000, 2000], 3⟩ := by
  have h := with_retry_policy (α := Nat)
    ⟨"e1", some 503, none⟩ ⟨"e2", some 503, none⟩ ⟨"e3", some 503, none⟩
    ⟨"nf", some 404, none⟩ 42 "op" (fun _ => .ok 42) rfl rfl rfl
  exact h.1

end GhPm

namespace GhPm

/-- C6 counterexample: with `x-ratelimit-reset` two seconds in the future
and `retry-after: 5`, the claim says the delay is exactly
`reset_time - now` (2000 ms); the code takes the maximum with the
`retry-after` delay and returns 5000 ms. -/
theorem calculate_retry_delay_counterexample :
    calculate_retry_delay (some 1002) (some 5) 1000 = 5000 ∧
    calculate_retry_delay (some 1002) (some 5) 1000 ≠ (1002 - 1000) * 1000 := by
  constructor
  · rfl
  · decide

/-- C6 (amended): `calculate_retry_delay` returns the *maximum* of the
reset-based wait (`(reset - now) * 1000` ms when the reset time is in the
future, else the 1000 ms default) and `retry-after * 1000` ms, clamped to a
60000 ms ceiling; the result always stays within the 1000 ms floor and the
60000 ms ceiling. -/
theorem calculate_retry_delay_amended (reset retryAfter : Option Int) (now : Int) :
    (1000 ≤ calculate_retry_delay reset retryAfter now) ∧
    (calculate_retry_delay reset retryAfter now ≤ 60000) ∧
    (∀ r a, reset = some r → r > now → retryAfter = some a →
      calculate_retry_delay reset retryAfter now = min (max ((r - now) * 1000) (a * 1000)) 60000) ∧
    (∀ r, reset = some r → r > now → retryAfter = none →
      calculate_retry_delay reset retryAfter now = min ((r - now) * 1000) 60000) ∧
    (∀ a, (reset = none ∨ ∃ r, reset = some r ∧ ¬ r > now) → retryAfter = some a →
      calculate_retry_delay reset retryAfter now = min (max 1000 (a * 1000)) 60000) ∧
    ((reset = none ∨ ∃ r, reset = some r ∧ ¬ r > now) → retryAfter = none →
      calculate_retry_delay reset retryAfter now = 1000) := by
  refine ⟨?_, ?_, ?_, ?_, ?_, ?_⟩
  · unfold calculate_retry_delay
    rcases reset with _ | r <;> rcases retryAfter with _ | a <;> simp
    all_goals first
    | omega
    | (split <;> omega)
  · unfold calculate_retry_delay
    rcases reset with _ | r <;> rcases retryAfter with _ | a <;> simp <;> omega
  · intro r a hr hgt ha
    subst hr; subst ha
    simp [calculate_retry_delay, hgt]
  · intro r hr hgt ha
    subst hr; subst ha
    simp [calculate_retry_delay, hgt]
  · intro a hres ha
    subst ha
    rcases hres with h | ⟨r, hr, hle⟩
    · subst h; simp [calculate_retry_delay]
    · subst hr; simp [calculate_retry_delay, hle]
  · intro hres ha
    subst ha
    rcases hres with h | ⟨r, hr, hle⟩
    · subst h; simp [calculate_retry_delay]
    · subst hr; simp [calculate_retry_delay, hle]

/-- Witness for `calculate_retry_delay_amended` at concrete inputs. -/
theorem calculate_retry_delay_amended_witness :
    calculate_retry_delay (some 105) (some 7) 100 = min (max ((105 - 100) * 1000) (7 * 1000)) 60000 := by
  exact (calculate_retry_delay_amended (some 105) (some 7) 100).2.2.1 105 7 rfl (by decide) rfl

end GhPm

namespace GhPm

/-! ## GraphQL transport (`graphql_client.py` lines 44-72) -/

/-- The nullable-field heuristic of `GraphQLClient.execute`: an error whose
message mentions an unresolvable Organization or User. -/
def isNullableFieldError (msg : String) : Bool :=
  containsSub "Could not resolve to an Organization" msg
    || containsSub "Could not resolve to a User" msg

/-- `GraphQLClient.execute` after a 200 response, as a function of the
decoded body: `data` is the top-level `data` object (an association list of
field name to nullable value; `none` models both an absent and a
JSON-`null` `data` entry, which the errors branch treats identically), and
`errors` is the `errors` array when the key is present, with each entry
reduced to its `message` string (the only part the code reads).  In the
no-errors branch Python returns `result.get("data", {})`; absent data is
the empty dict there. -/
def graphql_execute {J : Type} (data : Option (List (String × Option J)))
    (errors : Option (List String)) : Except String (List (String × Option J)) :=
  match errors with
  | some errs =>
    let fatal_errors := errs.filter (fun m => ! isNullableFieldError m)
    let raise : Except String (List (String × Option J)) :=
      .error ("GraphQL errors: " ++ String.intercalate ", " errs)
    match data with
    | some d => if fatal_errors = [] ∧ 0 < d.length then .ok d else raise
    | none => raise
  | none =>
    match data with
    | some d => .ok d
    | none => .ok []

end GhPm

namespace GhPm

/-- C2 counterexample: a 200 response whose `data` is `{"organization":
null}` (one top-level key, null-valued) and whose only error is a
nullable-field error.  The claim says data is returned only when at least
one top-level key is non-null, so this response should raise; the code
only checks `len(data) > 0` and returns the all-null data. -/
theorem graphql_execute_counterexample :
    graphql_execute (J := Unit) (some [("organization", none)])
        (some ["Could not resolve to an Organization with the login of x"]) =
      .ok [("organization", none)] ∧
    ¬ ∃ k v, (k, some v) ∈ [("organization", (none : Option Unit))] := by
  constructor
  · rfl
  · rintro ⟨k, v, hm⟩
    simp at hm

/-- C2 (amended): on a 200 response containing an errors array, `execute`
partitions the errors by the nullable-field heuristic and returns the
response data if and only if the data object is present and *non-empty*
(its values may all be null) and there are zero fatal errors; otherwise it
raises an exception joining all error messages. -/
theorem graphql_execute_partial_data {J : Type}
    (data : Option (List (String × Option J))) (errs : List String) :
    (∀ d, data = some d → 0 < d.length →
      errs.filter (fun m => ! isNullableFieldError m) = [] →
      graphql_execute data (some errs) = .ok d) ∧
    ((data = none ∨ data = some [] ∨
        errs.filter (fun m => ! isNullableFieldError m) ≠ []) →
      graphql_execute data (some errs) =
        .error ("GraphQL errors: " ++ String.intercalate ", " errs)) := by
  constructor
  · intro d hd hlen hfatal
    subst hd
    simp [graphql_execute, hfatal, hlen]
  · intro h
    rcases h with h | h | h
    · subst h; simp [graphql_execute]
    · subst h; simp [graphql_execute]
    · cases data with
      | none => simp [graphql_execute]
      | some d => simp [graphql_execute, h]

/-- Witness for `graphql_execute_partial_data` at concrete inputs. -/
theorem graphql_execute_partial_data_witness :
    graphql_execute (J := Unit)
        (some [("user", some ()), ("organization", none)])
        (some ["Could not resolve to an Organization with the login of x"]) =
      .ok [("user", some ()), ("organization", none)] := by
  exact (graphql_execute_partial_data (J := Unit)
      (some [("user", some ()), ("organization", none)])
      ["Could not resolve to an Organization with the login of x"]).1
    _ rfl (by decide) (by decide)

end GhPm

namespace GhPm

/-! ## Tool dispatcher (`tool_handlers.py` lines 1880-1965) -/

/-- The keys of the `TOOL_HANDLERS` registry (tool_handlers.py lines
1880-1944). -/
def TOOL_HANDLERS_names : List String :=
  ["create_project", "list_projects", "get_project", "update_project",
   "delete_project",
   "create_issue", "get_issue", "list_issues", "update_issue",
   "add_issue_comment", "list_issue_comments", "update_issue_comment",
   "delete_issue_comment",
   "search_issues",
   "filter_project_items", "find_issues_by_field",
   "create_milestone", "list_milestones", "get_milestone_metrics",
   "get_overdue_milestones", "get_upcoming_milestones", "update_milestone",
   "delete_milestone",
   "create_roadmap",
   "create_sprint", "plan_sprint", "get_sprint_metrics", "list_sprints",
   "add_issues_to_sprint",
   "set_field_value",
   "add_project_item",
   "create_project_field",
   "create_label", "list_labels",
   "list_project_fields",
   "create_project_view"]

/-- Result of `execute_tool`: either the named handler is invoked, or an
`MCPErrorResponse` envelope is returned without invoking any handler. -/
inductive MCPDispatchResult where
  | invoked (tool_name : String)
  | errorResponse (code : String) (message : String)
deriving Repr, DecidableEq

/-- `execute_tool` (tool_handlers.py lines 1947-1965):
`MCPErrorCode.RESOURCE_NOT_FOUND.value` is `"MCP-003"`
(`src/domain/mcp_types.py`). -/
def execute_tool (tool_name : String) : MCPDispatchResult :=
  if TOOL_HANDLERS_names.contains tool_name then .invoked tool_name
  else .errorResponse "MCP-003" ("Tool '" ++ tool_name ++ "' not found")

/-- C9: for every tool name not present in the handler table, `execute_tool`
invokes no handler and returns an error envelope whose code is
`RESOURCE_NOT_FOUND` (`"MCP-003"`) and whose message contains the tool
name. -/
theorem execute_tool_unknown (name : String)
    (h : name ∉ TOOL_HANDLERS_names) :
    execute_tool name =
      .errorResponse "MCP-003" ("Tool '" ++ name ++ "' not found") ∧
    (∀ t, execute_tool name ≠ .invoked t) ∧
    name.data <:+: ("Tool '" ++ name ++ "' not found").data := by
  refine ⟨?_, ?_, ?_⟩
  · simp [execute_tool, h]
  · intro t hinv
    simp [execute_tool, h] at hinv
  · exact ⟨"Tool '".data, "' not found".data, by simp⟩

/-- Witness for `execute_tool_unknown` at the unknown tool name
`"frobnicate"`. -/
theorem execute_tool_unknown_witness :
    execute_tool "frobnicate" =
      .errorResponse "MCP-003" ("Tool '" ++ "frobnicate" ++ "' not found") :=
  (execute_tool_unknown "frobnicate" (by decide)).1

end GhPm

namespace GhPm

/-! ## Project repository owner resolution
(`github_project_repository.py` lines 180-256) -/

/-- Outcome of one owner probe (the `user(login:)` or `organization(login:)`
GraphQL query as seen by `find_by_owner` after the transport layer):
`data (some ps)` is a 200 response whose probed owner resolved with project
nodes `ps`; `data none` is a 200 response in which the probed owner field is
JSON `null` (the nullable-field path of `GraphQLClient.execute`); `exn msg`
is a raised exception with `str(e) = msg`. -/
inductive ProbeOutcome (P : Type) where
  | data (node : Option (List P))
  | exn (msg : String)

/-- `GitHubProjectRepository.find_by_owner` as a function of the two probe
outcomes.  On `data none` the user branch hits `None.get(...)`
(`AttributeError`), which the `except` swallows; the org branch
explicitly checks for a falsy `organization` value.  An org-probe
exception whose message lacks the `"Could not resolve to an Organization"`
phrase is re-raised iff no user projects were collected. -/
def find_by_owner_model {P : Type} (userProbe orgProbe : ProbeOutcome P) :
    Except String (List P) :=
  let user_projects : List P :=
    match userProbe with
    | .data (some ps) => ps
    | .data none => []
    | .exn _ => []
  match orgProbe with
  | .data (some ps) => .ok (user_projects ++ ps)
  | .data none => .ok (user_projects ++ [])
  | .exn msg =>
    if ! containsSub "Could not resolve to an Organization" msg then
      if user_projects.isEmpty then .error msg
      else .ok (user_projects ++ [])
    else .ok (user_projects ++ [])

/-- C8: when exactly one of the two probes resolves and the other fails
with the corresponding "Could not resolve to a User"/"Could not resolve to
an Organization" error (either as a null owner field or as a raised
nullable-phrase exception), `find_by_owner` returns the resolved owner's
projects and does not raise. -/
theorem find_by_owner_one_probe (P : Type) (ps : List P)
    (userProbe orgProbe : ProbeOutcome P) :
    (userProbe = .data (some ps) →
      (orgProbe = .data none ∨
        ∃ m, orgProbe = .exn m ∧
          containsSub "Could not resolve to an Organization" m = true) →
      find_by_owner_model userProbe orgProbe = .ok ps) ∧
    ((userProbe = .data none ∨
        ∃ m, userProbe = .exn m ∧
          containsSub "Could not resolve to a User" m = true) →
      orgProbe = .data (some ps) →
      find_by_owner_model userProbe orgProbe = .ok ps) := by
  constructor
  · intro hu ho
    subst hu
    rcases ho with h | ⟨m, hm, hsub⟩
    · subst h; simp [find_by_owner_model]
    · subst hm; simp [find_by_owner_model, hsub]
  · intro hu ho
    subst ho
    rcases hu with h | ⟨m, hm, _hsub⟩
    · subst h; simp [find_by_owner_model]
    · subst hm; simp [find_by_owner_model]

/-- Witness for `find_by_owner_one_probe` at concrete inputs. -/
theorem find_by_owner_one_probe_witness :
    find_by_owner_model (P := String)
        (.data (some ["proj1", "proj2"]))
        (.exn "GitHub API error: GraphQL errors: Could not resolve to an Organization with the login of alice. (executing GraphQL query)") =
      .ok ["proj1", "proj2"] := by
  exact (find_by_owner_one_probe String ["proj1", "proj2"] _ _).1 rfl
    (Or.inr ⟨_, rfl, by decide⟩)

end GhPm

namespace GhPm

/-! ## Date parsing
(`github_milestone_repository.py` lines 15-44, `github_sprint_repository.py`
lines 146-160)

`datetime` values are tracked at date granularity: every claim in scope
depends only on the year/month/day component of the parsed value. -/

/-- A calendar date (the date component of a Python `datetime`). -/
structure Date where
  year : Nat
  month : Nat
  day : Nat
deriving Repr, DecidableEq

/-- Gregorian leap-year rule (as validated by the `datetime` constructor). -/
def isLeapYear (y : Nat) : Bool :=
  (y % 4 = 0 && y % 100 ≠ 0) || y % 400 = 0

/-- Days in a month, per the `datetime` constructor's validation. -/
def daysInMonth (y m : Nat) : Nat :=
  if m = 2 then (if isLeapYear y then 29 else 28)
  else if m = 4 ∨ m = 6 ∨ m = 9 ∨ m = 11 then 30
  else 31

/-- Validity of `datetime(y, m, d)`: `MINYEAR = 1`, `MAXYEAR = 9999`. -/
def validDate (y m d : Nat) : Bool :=
  1 ≤ y && y ≤ 9999 && 1 ≤ m && m ≤ 12 && 1 ≤ d && d ≤ daysInMonth y m

/-- Numeric value of an ASCII digit character. -/
def digitVal (c : Char) : Nat := c.toNat - 48

/-- Two-digit decimal value. -/
def dig2 (a b : Char) : Nat := 10 * digitVal a + digitVal b

/-- Four-digit decimal value. -/
def dig4 (a b c d : Char) : Nat :=
  1000 * digitVal a + 100 * digitVal b + 10 * digitVal c + digitVal d

/-- `int(s)` on a string of ASCII digits. -/
def pyIntDigits (l : List Char) : Nat :=
  l.foldl (fun a c => 10 * a + digitVal c) 0

/-- `datetime.strptime(s, "%Y-%m-%d")` on a 10-character input: `%Y` matches
exactly four digits and, at this total length, `%m`/`%d` must match exactly
two digits each; the constructed `datetime` validates the calendar date. -/
def strptime_Ymd_dash : List Char → Option Date
  | [y1, y2, y3, y4, s1, m1, m2, s2, d1, d2] =>
    if s1 = '-' && s2 = '-' &&
        ([y1, y2, y3, y4, m1, m2, d1, d2].all Char.isDigit) then
      let y := dig4 y1 y2 y3 y4
      let m := dig2 m1 m2
      let d := dig2 d1 d2
      if validDate y m d then some ⟨y, m, d⟩ else none
    else none
  | _ => none

/-- `datetime.strptime(s, "%Y/%m/%d")` on a 10-character input. -/
def strptime_Ymd_slash : List Char → Option Date
  | [y1, y2, y3, y4, s1, m1, m2, s2, d1, d2] =>
    if s1 = '/' && s2 = '/' &&
        ([y1, y2, y3, y4, m1, m2, d1, d2].all Char.isDigit) then
      let y := dig4 y1 y2 y3 y4
      let m := dig2 m1 m2
      let d := dig2 d1 d2
      if validDate y m d then some ⟨y, m, d⟩ else none
    else none
  | _ => none

/-- `datetime.strptime(s, "%m/%d/%Y")` on a 10-character input. -/
def strptime_mdY : List Char → Option Date
  | [m1, m2, s1, d1, d2, s2, y1, y2, y3, y4] =>
    if s1 = '/' && s2 = '/' &&
        ([m1, m2, d1, d2, y1, y2, y3, y4].all Char.isDigit) then
      let y := dig4 y1 y2 y3 y4
      let m := dig2 m1 m2
      let d := dig2 d1 d2
      if validDate y m d then some ⟨y, m, d⟩ else none
    else none
  | _ => none

/-- Two ASCII digits at the head of the list, returning their value and the
rest. -/
def parse2 : List Char → Option (Nat × List Char)
  | a :: b :: rest =>
    if a.isDigit && b.isDigit then some (dig2 a b, rest) else none
  | _ => none

/-- A `±HH:MM` UTC-offset tail. -/
def offsetTail : List Char → Bool
  | [sgn, a, b, c, d, e] =>
    (sgn = '+' || sgn = '-') && a.isDigit && b.isDigit && c = ':'
      && d.isDigit && e.isDigit && dig2 a b ≤ 23 && dig2 d e ≤ 59
  | _ => false

/-- What may follow the seconds of an ISO time: nothing, a fractional part
of exactly 3 or 6 digits (optionally followed by an offset), or an offset. -/
def afterSeconds : List Char → Bool
  | [] => true
  | '.' :: r =>
    let digits := r.takeWhile Char.isDigit
    let rest := r.dropWhile Char.isDigit
    (digits.length = 3 || digits.length = 6) && (rest.isEmpty || offsetTail rest)
  | l => offsetTail l

/-- What may follow the minutes of an ISO time. -/
def afterMinutes : List Char → Bool
  | [] => true
  | ':' :: r =>
    match parse2 r with
    | some (ss, rest) => ss ≤ 59 && afterSeconds rest
    | none => false
  | l => offsetTail l

/-- An ISO time-of-day `HH[:MM[:SS[.fff[fff]]]][±HH:MM]`. -/
def isoTimeTail (l : List Char) : Bool :=
  match parse2 l with
  | some (hh, rest) =>
    hh ≤ 23 &&
      (match rest with
       | [] => true
       | ':' :: r2 =>
         (match parse2 r2 with
          | some (mm, rest2) => mm ≤ 59 && afterMinutes rest2
          | none => false)
       | l2 => offsetTail l2)
  | none => false

/-- `datetime.fromisoformat` in the CPython ≤ 3.10 dialect: a `YYYY-MM-DD`
date, optionally followed by one separator character and a time-of-day.
Only the date component is returned.  (The time-of-day grammar never
affects the milestone/sprint parse result: when `fromisoformat` fails, the
`strptime` fallback re-parses the same 10-character date prefix.) -/
def pyFromIsoformat (l : List Char) : Option Date :=
  match strptime_Ymd_dash (l.take 10) with
  | some dt =>
    match l.drop 10 with
    | [] => some dt
    | _ :: timePart => if isoTimeTail timePart then some dt else none
  | none => none

/-- `s.replace('Z', '+00:00')`. -/
def replaceZ : List Char → List Char
  | [] => []
  | c :: t =>
    if c = 'Z' then '+' :: '0' :: '0' :: ':' :: '0' :: '0' :: replaceZ t
    else c :: replaceZ t

/-- The due-date parsing step of `GitHubMilestoneRepository.create`
(lines 17-44): a bare 4-digit year becomes `datetime(year, 12, 31)`
(December 31, raising inside the wrapper for year 0); otherwise a length-10
or longer string is tried against `fromisoformat` (after `Z` replacement)
and then against the three `strptime` formats on its first 10 characters;
anything else, or a string none of the formats accept, raises a
`ValueError` whose message embeds the offending input. -/
def milestone_parse_due_date (s : String) : Except String Date :=
  let wrap : String → String := fun e =>
    "Invalid due_date format '" ++ s ++ "': " ++ e
      ++ ". Expected ISO format (YYYY-MM-DD) or year (YYYY)."
  if s.length = 4 ∧ s.data.all Char.isDigit then
    let y := pyIntDigits s.data
    if 1 ≤ y then .ok ⟨y, 12, 31⟩
    else .error (wrap ("year " ++ toString y ++ " is out of range"))
  else if 10 ≤ s.length then
    match pyFromIsoformat (replaceZ s.data) with
    | some dt => .ok dt
    | none =>
      match strptime_Ymd_dash (s.data.take 10) with
      | some dt => .ok dt
      | none =>
        match strptime_Ymd_slash (s.data.take 10) with
        | some dt => .ok dt
        | none =>
          match strptime_mdY (s.data.take 10) with
          | some dt => .ok dt
          | none => .error (wrap ("Could not parse due_date: " ++ s))
  else .error (wrap ("Invalid date format: " ++ s))

/-- The ASCII digit character for `k ≤ 9`. -/
def digitChar (k : Nat) : Char := Char.ofNat (48 + k)

/-- Four-digit zero-padded rendering of `y ≤ 9999`. -/
def pad4 (y : Nat) : List Char :=
  [digitChar (y / 1000), digitChar (y / 100 % 10),
   digitChar (y / 10 % 10), digitChar (y % 10)]

/-- Two-digit zero-padded rendering of `m ≤ 99`. -/
def pad2 (m : Nat) : List Char :=
  [digitChar (m / 10), digitChar (m % 10)]

end GhPm

namespace GhPm

theorem digitChar_isDigit {k : Nat} (h : k ≤ 9) :
    (digitChar k).isDigit = true := by
  interval_cases k <;> decide

theorem digitVal_digitChar {k : Nat} (h : k ≤ 9) :
    digitVal (digitChar k) = k := by
  interval_cases k <;> decide

theorem digitChar_ne_dash {k : Nat} (h : k ≤ 9) : digitChar k ≠ '-' := by
  interval_cases k <;> decide

end GhPm

namespace GhPm

/-- Bounds packaged out of `validDate`. -/
theorem validDate_bounds {y m d : Nat} (h : validDate y m d = true) :
    1 ≤ y ∧ y ≤ 9999 ∧ 1 ≤ m ∧ m ≤ 12 ∧ 1 ≤ d ∧ d ≤ 31 := by
  simp only [validDate, Bool.and_eq_true, decide_eq_true_eq] at h
  obtain ⟨⟨⟨⟨⟨h1, h2⟩, h3⟩, h4⟩, h5⟩, h6⟩ := h
  refine ⟨h1, h2, h3, h4, h5, ?_⟩
  have : daysInMonth y m ≤ 31 := by
    unfold daysInMonth
    split
    · split <;> omega
    · split <;> omega
  omega

/-- `strptime` with `%Y-%m-%d` accepts the zero-padded rendering of any
valid calendar date. -/
theorem strptime_Ymd_dash_pad {y m d : Nat} (h : validDate y m d = true) :
    strptime_Ymd_dash (pad4 y ++ '-' :: (pad2 m ++ '-' :: pad2 d)) =
      some ⟨y, m, d⟩ := by
  obtain ⟨hy1, hy2, hm1, hm2, hd1, hd2⟩ := validDate_bounds h
  have b1 : y / 1000 ≤ 9 := by omega
  have b2 : y / 100 % 10 ≤ 9 := by omega
  have b3 : y / 10 % 10 ≤ 9 := by omega
  have b4 : y % 10 ≤ 9 := by omega
  have b5 : m / 10 ≤ 9 := by omega
  have b6 : m % 10 ≤ 9 := by omega
  have b7 : d / 10 ≤ 9 := by omega
  have b8 : d % 10 ≤ 9 := by omega
  have hy : dig4 (digitChar (y / 1000)) (digitChar (y / 100 % 10))
      (digitChar (y / 10 % 10)) (digitChar (y % 10)) = y := by
    simp only [dig4, digitVal_digitChar b1, digitVal_digitChar b2,
      digitVal_digitChar b3, digitVal_digitChar b4]
    omega
  have hm : dig2 (digitChar (m / 10)) (digitChar (m % 10)) = m := by
    simp only [dig2, digitVal_digitChar b5, digitVal_digitChar b6]
    omega
  have hd : dig2 (digitChar (d / 10)) (digitChar (d % 10)) = d := by
    simp only [dig2, digitVal_digitChar b7, digitVal_digitChar b8]
    omega
  simp only [pad4, pad2, List.cons_append, List.nil_append, strptime_Ymd_dash,
    List.all_cons, List.all_nil, digitChar_isDigit b1, digitChar_isDigit b2,
    digitChar_isDigit b3, digitChar_isDigit b4, digitChar_isDigit b5,
    digitChar_isDigit b6, digitChar_isDigit b7, digitChar_isDigit b8,
    hy, hm, hd, h]
  simp

/-- `strptime` with `%Y/%m/%d` accepts the zero-padded slash rendering of
any valid calendar date. -/
theorem strptime_Ymd_slash_pad {y m d : Nat} (h : validDate y m d = true) :
    strptime_Ymd_slash (pad4 y ++ '/' :: (pad2 m ++ '/' :: pad2 d)) =
      some ⟨y, m, d⟩ := by
  obtain ⟨hy1, hy2, hm1, hm2, hd1, hd2⟩ := validDate_bounds h
  have b1 : y / 1000 ≤ 9 := by omega
  have b2 : y / 100 % 10 ≤ 9 := by omega
  have b3 : y / 10 % 10 ≤ 9 := by omega
  have b4 : y % 10 ≤ 9 := by omega
  have b5 : m / 10 ≤ 9 := by omega
  have b6 : m % 10 ≤ 9 := by omega
  have b7 : d / 10 ≤ 9 := by omega
  have b8 : d % 10 ≤ 9 := by omega
  have hy : dig4 (digitChar (y / 1000)) (digitChar (y / 100 % 10))
      (digitChar (y / 10 % 10)) (digitChar (y % 10)) = y := by
    simp only [dig4, digitVal_digitChar b1, digitVal_digitChar b2,
      digitVal_digitChar b3, digitVal_digitChar b4]
    omega
  have hm : dig2 (digitChar (m / 10)) (digitChar (m % 10)) = m := by
    simp only [dig2, digitVal_digitChar b5, digitVal_digitChar b6]
    omega
  have hd : dig2 (digitChar (d / 10)) (digitChar (d % 10)) = d := by
    simp only [dig2, digitVal_digitChar b7, digitVal_digitChar b8]
    omega
  simp only [pad4, pad2, List.cons_append, List.nil_append, strptime_Ymd_slash,
    List.all_cons, List.all_nil, digitChar_isDigit b1, digitChar_isDigit b2,
    digitChar_isDigit b3, digitChar_isDigit b4, digitChar_isDigit b5,
    digitChar_isDigit b6, digitChar_isDigit b7, digitChar_isDigit b8,
    hy, hm, hd, h]
  simp

/-- `strptime` with `%m/%d/%Y` accepts the zero-padded US rendering of any
valid calendar date. -/
theorem strptime_mdY_pad {y m d : Nat} (h : validDate y m d = true) :
    strptime_mdY (pad2 m ++ '/' :: (pad2 d ++ '/' :: pad4 y)) =
      some ⟨y, m, d⟩ := by
  obtain ⟨hy1, hy2, hm1, hm2, hd1, hd2⟩ := validDate_bounds h
  have b1 : y / 1000 ≤ 9 := by omega
  have b2 : y / 100 % 10 ≤ 9 := by omega
  have b3 : y / 10 % 10 ≤ 9 := by omega
  have b4 : y % 10 ≤ 9 := by omega
  have b5 : m / 10 ≤ 9 := by omega
  have b6 : m % 10 ≤ 9 := by omega
  have b7 : d / 10 ≤ 9 := by omega
  have b8 : d % 10 ≤ 9 := by omega
  have hy : dig4 (digitChar (y / 1000)) (digitChar (y / 100 % 10))
      (digitChar (y / 10 % 10)) (digitChar (y % 10)) = y := by
    simp only [dig4, digitVal_digitChar b1, digitVal_digitChar b2,
      digitVal_digitChar b3, digitVal_digitChar b4]
    omega
  have hm : dig2 (digitChar (m / 10)) (digitChar (m % 10)) = m := by
    simp only [dig2, digitVal_digitChar b5, digitVal_digitChar b6]
    omega
  have hd : dig2 (digitChar (d / 10)) (digitChar (d % 10)) = d := by
    simp only [dig2, digitVal_digitChar b7, digitVal_digitChar b8]
    omega
  simp only [pad4, pad2, List.cons_append, List.nil_append, strptime_mdY,
    List.all_cons, List.all_nil, digitChar_isDigit b1, digitChar_isDigit b2,
    digitChar_isDigit b3, digitChar_isDigit b4, digitChar_isDigit b5,
    digitChar_isDigit b6, digitChar_isDigit b7, digitChar_isDigit b8,
    hy, hm, hd, h]
  simp

end GhPm

namespace GhPm

/-- A string accepted by the `%Y-%m-%d` parser consists of digits and
dashes only. -/
theorem strptime_Ymd_dash_chars {l : List Char} {dt : Date}
    (h : strptime_Ymd_dash l = some dt) :
    ∀ c ∈ l, c.isDigit = true ∨ c = '-' := by
  match l with
  | [y1, y2, y3, y4, s1, m1, m2, s2, d1, d2] =>
    simp only [strptime_Ymd_dash] at h
    split at h
    · rename_i hc
      simp only [Bool.and_eq_true, List.all_cons, List.all_nil,
        decide_eq_true_eq] at hc
      obtain ⟨⟨hs1, hs2⟩, hy1, hy2, hy3, hy4, hm1, hm2, hd1, hd2, -⟩ := hc
      intro c hc
      simp only [List.mem_cons, List.not_mem_nil, or_false] at hc
      rcases hc with rfl | rfl | rfl | rfl | rfl | rfl | rfl | rfl | rfl | rfl
      · exact Or.inl hy1
      · exact Or.inl hy2
      · exact Or.inl hy3
      · exact Or.inl hy4
      · exact Or.inr hs1
      · exact Or.inl hm1
      · exact Or.inl hm2
      · exact Or.inr hs2
      · exact Or.inl hd1
      · exact Or.inl hd2
    · exact absurd h (by simp)
  | [] => exact absurd h (by simp [strptime_Ymd_dash])
  | [a] => exact absurd h (by simp [strptime_Ymd_dash])
  | [a, b] => exact absurd h (by simp [strptime_Ymd_dash])
  | [a, b, c] => exact absurd h (by simp [strptime_Ymd_dash])
  | [a, b, c, d] => exact absurd h (by simp [strptime_Ymd_dash])
  | [a, b, c, d, e] => exact absurd h (by simp [strptime_Ymd_dash])
  | [a, b, c, d, e, f] => exact absurd h (by simp [strptime_Ymd_dash])
  | [a, b, c, d, e, f, g] => exact absurd h (by simp [strptime_Ymd_dash])
  | [a, b, c, d, e, f, g, i] => exact absurd h (by simp [strptime_Ymd_dash])
  | [a, b, c, d, e, f, g, i, j] => exact absurd h (by simp [strptime_Ymd_dash])
  | a :: b :: c :: d :: e :: f :: g :: i :: j :: k :: x :: rest =>
    exact absurd h (by simp [strptime_Ymd_dash])

/-- `replaceZ` leaves the first `n` characters unchanged when they contain
no `'Z'`. -/
theorem replaceZ_take {l : List Char} {n : Nat}
    (h : ∀ c ∈ l.take n, c ≠ 'Z') :
    (replaceZ l).take n = l.take n := by
  induction l generalizing n with
  | nil => simp [replaceZ]
  | cons c t ih =>
    cases n with
    | zero => simp
    | succ k =>
      have hc : c ≠ 'Z' := h c (by simp)
      simp only [replaceZ, if_neg hc, List.take_succ_cons]
      rw [ih]
      intro x hx
      exact h x (by simp [hx])

/-- If the first `n` characters contain a `'Z'`, then after replacement the
first `n` characters contain a `'+'`. -/
theorem replaceZ_plus {l : List Char} {n : Nat}
    (h : 'Z' ∈ l.take n) :
    '+' ∈ (replaceZ l).take n := by
  induction l generalizing n with
  | nil => simp at h
  | cons c t ih =>
    cases n with
    | zero => simp at h
    | succ k =>
      simp only [List.take_succ_cons, List.mem_cons] at h
      by_cases hc : c = 'Z'
      · subst hc
        simp [replaceZ]
      · rcases h with h | h
        · exact absurd h.symm hc
        · simp only [replaceZ, if_neg hc, List.take_succ_cons, List.mem_cons]
          exact Or.inr (ih h)

/-- Composite prefix property of the milestone due-date parse: any string of
length ≥ 10 whose first 10 characters are a valid `YYYY-MM-DD` date parses
to that date (either through `fromisoformat` or through the `strptime`
fallback on the same prefix). -/
theorem milestone_parse_date10 {s : String} {dt : Date}
    (hlen : 10 ≤ s.length) (hp : strptime_Ymd_dash (s.data.take 10) = some dt) :
    milestone_parse_due_date s = .ok dt := by
  have h4 : ¬ (s.length = 4 ∧ s.data.all Char.isDigit = true) := by
    rintro ⟨hl, -⟩
    omega
  have hnoZ : ∀ c ∈ s.data.take 10, c ≠ 'Z' := by
    intro c hc hz
    subst hz
    rcases strptime_Ymd_dash_chars hp _ hc with h | h
    · exact absurd h (by decide)
    · exact absurd h (by decide)
  have htake : (replaceZ s.data).take 10 = s.data.take 10 := replaceZ_take hnoZ
  unfold milestone_parse_due_date
  rw [if_neg (by simpa using h4), if_pos hlen]
  cases hiso : pyFromIsoformat (replaceZ s.data) with
  | none => simp [hp]
  | some dt' =>
    have : dt' = dt := by
      unfold pyFromIsoformat at hiso
      rw [htake, hp] at hiso
      rcases hdrop : (replaceZ s.data).drop 10 with _ | ⟨c, rest⟩
      · rw [hdrop] at hiso
        simp at hiso
        exact hiso.symm
      · rw [hdrop] at hiso
        by_cases ht : isoTimeTail rest = true
        · simp [ht] at hiso
          exact hiso.symm
        · simp [ht] at hiso
    subst this
    simp

/-- If the `fromisoformat` attempt on the `Z`-replaced string succeeds, the
first 10 characters of the original string already form a valid
`YYYY-MM-DD` date. -/
theorem pyFromIsoformat_replaceZ_date {s : String} {dt : Date}
    (hiso : pyFromIsoformat (replaceZ s.data) = some dt) :
    strptime_Ymd_dash (s.data.take 10) = some dt := by
  have hdash : strptime_Ymd_dash ((replaceZ s.data).take 10) = some dt := by
    unfold pyFromIsoformat at hiso
    rcases hd : strptime_Ymd_dash ((replaceZ s.data).take 10) with _ | dt'
    · rw [hd] at hiso
      simp at hiso
    · rw [hd] at hiso
      rcases hdrop : (replaceZ s.data).drop 10 with _ | ⟨c, rest⟩
      · rw [hdrop] at hiso
        simpa [hd] using hiso
      · rw [hdrop] at hiso
        by_cases ht : isoTimeTail rest = true
        · simp [ht] at hiso
          rw [hiso]
        · simp [ht] at hiso
  have hnoZ : ∀ c ∈ s.data.take 10, c ≠ 'Z' := by
    intro c hc hz
    subst hz
    have hplus : '+' ∈ (replaceZ s.data).take 10 := replaceZ_plus (by simpa using hc)
    rcases strptime_Ymd_dash_chars hdash _ hplus with h | h
    · exact absurd h (by decide)
    · exact absurd h (by decide)
  rwa [replaceZ_take hnoZ] at hdash

end GhPm

namespace GhPm

theorem string_data_append (a b : String) : (a ++ b).data = a.data ++ b.data := rfl

theorem digitChar_ne_slash {k : Nat} (h : k ≤ 9) : digitChar k ≠ '/' := by
  interval_cases k <;> decide

theorem digitChar_ne_Z {k : Nat} (h : k ≤ 9) : digitChar k ≠ 'Z' := by
  interval_cases k <;> decide

/-- `replaceZ` is the identity on `Z`-free strings. -/
theorem replaceZ_eq_self {l : List Char} (h : ∀ c ∈ l, c ≠ 'Z') :
    replaceZ l = l := by
  induction l with
  | nil => rfl
  | cons c t ih =>
    have hc : c ≠ 'Z' := h c (by simp)
    simp only [replaceZ, if_neg hc]
    rw [ih]
    intro x hx
    exact h x (by simp [hx])

/-- Helper: a bare 4-digit year `0001`-`9999` parses to December 31 of that
year. -/
theorem parse_pad4_year {y : Nat} (h1 : 1 ≤ y) (h2 : y ≤ 9999) :
    milestone_parse_due_date ⟨pad4 y⟩ = .ok ⟨y, 12, 31⟩ := by
  have b1 : y / 1000 ≤ 9 := by omega
  have b2 : y / 100 % 10 ≤ 9 := by omega
  have b3 : y / 10 % 10 ≤ 9 := by omega
  have b4 : y % 10 ≤ 9 := by omega
  have hint : pyIntDigits (pad4 y) = y := by
    simp only [pyIntDigits, pad4, List.foldl_cons, List.foldl_nil,
      digitVal_digitChar b1, digitVal_digitChar b2, digitVal_digitChar b3,
      digitVal_digitChar b4]
    omega
  have hlen : (String.mk (pad4 y)).length = 4 := by
    simp [String.length, pad4]
  have hdig : (String.mk (pad4 y)).data.all Char.isDigit = true := by
    simp [pad4, digitChar_isDigit b1, digitChar_isDigit b2,
      digitChar_isDigit b3, digitChar_isDigit b4]
  unfold milestone_parse_due_date
  rw [if_pos ⟨hlen, hdig⟩]
  simp only [hint]
  rw [if_pos h1]

/-- Helper: any string starting with a zero-padded valid `YYYY-MM-DD` date
parses to that date, whatever follows the 10-character prefix. -/
theorem parse_dash_with_rest {y m d : Nat} (rest : List Char)
    (h : validDate y m d = true) :
    milestone_parse_due_date
      ⟨(pad4 y ++ '-' :: (pad2 m ++ '-' :: pad2 d)) ++ rest⟩ = .ok ⟨y, m, d⟩ := by
  have hlen : 10 ≤ (String.mk ((pad4 y ++ '-' :: (pad2 m ++ '-' :: pad2 d)) ++ rest)).length := by
    simp [String.length, pad4, pad2]
  apply milestone_parse_date10 hlen
  have htake : ((pad4 y ++ '-' :: (pad2 m ++ '-' :: pad2 d)) ++ rest).take 10 =
      pad4 y ++ '-' :: (pad2 m ++ '-' :: pad2 d) := by
    simp [pad4, pad2, List.take_succ_cons]
  show strptime_Ymd_dash (((pad4 y ++ '-' :: (pad2 m ++ '-' :: pad2 d)) ++ rest).take 10) = _
  rw [htake]
  exact strptime_Ymd_dash_pad h

/-- Helper: the dash parser rejects a slash-rendered date. -/
theorem strptime_dash_of_slash {y m d : Nat} (h : validDate y m d = true) :
    strptime_Ymd_dash (pad4 y ++ '/' :: (pad2 m ++ '/' :: pad2 d)) = none := by
  simp [pad4, pad2, strptime_Ymd_dash]

/-- Helper: the dash parser rejects an `MM/DD/YYYY`-rendered date. -/
theorem strptime_dash_of_mdY {y m d : Nat} (h : validDate y m d = true) :
    strptime_Ymd_dash (pad2 m ++ '/' :: (pad2 d ++ '/' :: pad4 y)) = none := by
  obtain ⟨-, -, -, hm2, -, hd2⟩ := validDate_bounds h
  have b : d % 10 ≤ 9 := by omega
  simp [pad4, pad2, strptime_Ymd_dash, digitChar_ne_dash b]

/-- Helper: the slash parser rejects an `MM/DD/YYYY`-rendered date. -/
theorem strptime_slash_of_mdY {y m d : Nat} (h : validDate y m d = true) :
    strptime_Ymd_slash (pad2 m ++ '/' :: (pad2 d ++ '/' :: pad4 y)) = none := by
  obtain ⟨-, -, -, hm2, -, hd2⟩ := validDate_bounds h
  have b : d % 10 ≤ 9 := by omega
  simp [pad4, pad2, strptime_Ymd_slash, digitChar_ne_slash b]

/-- Helper: a `YYYY/MM/DD` rendering of a valid date parses to that date. -/
theorem parse_slash_date {y m d : Nat} (h : validDate y m d = true) :
    milestone_parse_due_date ⟨pad4 y ++ '/' :: (pad2 m ++ '/' :: pad2 d)⟩ =
      .ok ⟨y, m, d⟩ := by
  obtain ⟨hy1, hy2, hm1, hm2, hd1, hd2⟩ := validDate_bounds h
  have b1 : y / 1000 ≤ 9 := by omega
  have b2 : y / 100 % 10 ≤ 9 := by omega
  have b3 : y / 10 % 10 ≤ 9 := by omega
  have b4 : y % 10 ≤ 9 := by omega
  have b5 : m / 10 ≤ 9 := by omega
  have b6 : m % 10 ≤ 9 := by omega
  have b7 : d / 10 ≤ 9 := by omega
  have b8 : d % 10 ≤ 9 := by omega
  have hZ : ∀ c ∈ pad4 y ++ '/' :: (pad2 m ++ '/' :: pad2 d), c ≠ 'Z' := by
    intro c hc
    simp only [pad4, pad2, List.cons_append, List.nil_append, List.mem_cons,
      List.not_mem_nil, or_false] at hc
    rcases hc with rfl | rfl | rfl | rfl | rfl | rfl | rfl | rfl | rfl | rfl
    · exact digitChar_ne_Z b1
    · exact digitChar_ne_Z b2
    · exact digitChar_ne_Z b3
    · exact digitChar_ne_Z b4
    · decide
    · exact digitChar_ne_Z b5
    · exact digitChar_ne_Z b6
    · decide
    · exact digitChar_ne_Z b7
    · exact digitChar_ne_Z b8
  have hlen : ¬ ((String.mk (pad4 y ++ '/' :: (pad2 m ++ '/' :: pad2 d))).length = 4 ∧
      (String.mk (pad4 y ++ '/' :: (pad2 m ++ '/' :: pad2 d))).data.all Char.isDigit = true) := by
    rintro ⟨hl, -⟩
    simp [String.length, pad4, pad2] at hl
  have hlen10 : 10 ≤ (String.mk (pad4 y ++ '/' :: (pad2 m ++ '/' :: pad2 d))).length := by
    simp [String.length, pad4, pad2]
  have htake : (pad4 y ++ '/' :: (pad2 m ++ '/' :: pad2 d)).take 10 =
      pad4 y ++ '/' :: (pad2 m ++ '/' :: pad2 d) := by
    simp [pad4, pad2]
  have hiso : pyFromIsoformat (replaceZ (pad4 y ++ '/' :: (pad2 m ++ '/' :: pad2 d))) = none := by
    rw [replaceZ_eq_self hZ]
    unfold pyFromIsoformat
    rw [htake, strptime_dash_of_slash h]
  unfold milestone_parse_due_date
  rw [if_neg (by simpa using hlen), if_pos hlen10]
  dsimp only
  rw [htake, hiso, strptime_dash_of_slash h, strptime_Ymd_slash_pad h]

end GhPm

namespace GhPm

/-- Helper: an `MM/DD/YYYY` rendering of a valid date parses to that date. -/
theorem parse_mdY_date {y m d : Nat} (h : validDate y m d = true) :
    milestone_parse_due_date ⟨pad2 m ++ '/' :: (pad2 d ++ '/' :: pad4 y)⟩ =
      .ok ⟨y, m, d⟩ := by
  obtain ⟨hy1, hy2, hm1, hm2, hd1, hd2⟩ := validDate_bounds h
  have b1 : y / 1000 ≤ 9 := by omega
  have b2 : y / 100 % 10 ≤ 9 := by omega
  have b3 : y / 10 % 10 ≤ 9 := by omega
  have b4 : y % 10 ≤ 9 := by omega
  have b5 : m / 10 ≤ 9 := by omega
  have b6 : m % 10 ≤ 9 := by omega
  have b7 : d / 10 ≤ 9 := by omega
  have b8 : d % 10 ≤ 9 := by omega
  have hZ : ∀ c ∈ pad2 m ++ '/' :: (pad2 d ++ '/' :: pad4 y), c ≠ 'Z' := by
    intro c hc
    simp only [pad4, pad2, List.cons_append, List.nil_append, List.mem_cons,
      List.not_mem_nil, or_false] at hc
    rcases hc with rfl | rfl | rfl | rfl | rfl | rfl | rfl | rfl | rfl | rfl
    · exact digitChar_ne_Z b5
    · exact digitChar_ne_Z b6
    · decide
    · exact digitChar_ne_Z b7
    · exact digitChar_ne_Z b8
    · decide
    · exact digitChar_ne_Z b1
    · exact digitChar_ne_Z b2
    · exact digitChar_ne_Z b3
    · exact digitChar_ne_Z b4
  have hlen : ¬ ((String.mk (pad2 m ++ '/' :: (pad2 d ++ '/' :: pad4 y))).length = 4 ∧
      (String.mk (pad2 m ++ '/' :: (pad2 d ++ '/' :: pad4 y))).data.all Char.isDigit = true) := by
    rintro ⟨hl, -⟩
    simp [String.length, pad4, pad2] at hl
  have hlen10 : 10 ≤ (String.mk (pad2 m ++ '/' :: (pad2 d ++ '/' :: pad4 y))).length := by
    simp [String.length, pad4, pad2]
  have htake : (pad2 m ++ '/' :: (pad2 d ++ '/' :: pad4 y)).take 10 =
      pad2 m ++ '/' :: (pad2 d ++ '/' :: pad4 y) := by
    simp [pad4, pad2]
  have hiso : pyFromIsoformat (replaceZ (pad2 m ++ '/' :: (pad2 d ++ '/' :: pad4 y))) = none := by
    rw [replaceZ_eq_self hZ]
    unfold pyFromIsoformat
    rw [htake, strptime_dash_of_mdY h]
  unfold milestone_parse_due_date
  rw [if_neg (by simpa using hlen), if_pos hlen10]
  dsimp only
  rw [htake, hiso, strptime_dash_of_mdY h, strptime_slash_of_mdY h,
    strptime_mdY_pad h]

/-- Helper: a string matching neither the bare-year pattern nor (on its
first 10 characters) any of the three date formats raises a `ValueError`
whose message embeds the offending input. -/
theorem parse_unmatched {s : String}
    (h4 : ¬ (s.length = 4 ∧ s.data.all Char.isDigit = true))
    (hdash : strptime_Ymd_dash (s.data.take 10) = none)
    (hslash : strptime_Ymd_slash (s.data.take 10) = none)
    (hmdY : strptime_mdY (s.data.take 10) = none) :
    ∃ msg, milestone_parse_due_date s = .error msg ∧ s.data <:+: msg.data := by
  by_cases hlen : 10 ≤ s.length
  · have hiso : pyFromIsoformat (replaceZ s.data) = none := by
      cases hi : pyFromIsoformat (replaceZ s.data) with
      | none => rfl
      | some dt =>
        exact absurd (pyFromIsoformat_replaceZ_date hi) (by simp [hdash])
    refine ⟨"Invalid due_date format '" ++ s ++ "': "
        ++ ("Could not parse due_date: " ++ s)
        ++ ". Expected ISO format (YYYY-MM-DD) or year (YYYY).", ?_, ?_⟩
    · unfold milestone_parse_due_date
      rw [if_neg (by simpa using h4), if_pos hlen]
      dsimp only
      rw [hiso, hdash, hslash, hmdY]
    · exact ⟨"Invalid due_date format '".data,
        ("': " ++ ("Could not parse due_date: " ++ s)
          ++ ". Expected ISO format (YYYY-MM-DD) or year (YYYY).").data,
        by simp [string_data_append]⟩
  · refine ⟨"Invalid due_date format '" ++ s ++ "': "
        ++ ("Invalid date format: " ++ s)
        ++ ". Expected ISO format (YYYY-MM-DD) or year (YYYY).", ?_, ?_⟩
    · unfold milestone_parse_due_date
      rw [if_neg (by simpa using h4), if_neg hlen]
    · exact ⟨"Invalid due_date format '".data,
        ("': " ++ ("Invalid date format: " ++ s)
          ++ ". Expected ISO format (YYYY-MM-DD) or year (YYYY).").data,
        by simp [string_data_append]⟩

end GhPm

namespace GhPm

deriving instance DecidableEq for Except

/-- C7 counterexample: `"2025-06-15 hello"` matches none of the five
supported formats (bare year, `YYYY-MM-DD`, `YYYY/MM/DD`, `MM/DD/YYYY`,
full ISO-8601), yet milestone creation parses it to 2025-06-15 instead of
raising: the `strptime` fallbacks only look at the first 10 characters. -/
theorem milestone_parse_trailing_garbage_counterexample :
    milestone_parse_due_date "2025-06-15 hello" = .ok ⟨2025, 6, 15⟩ ∧
    ∀ msg, milestone_parse_due_date "2025-06-15 hello" ≠ .error msg := by
  constructor
  · decide
  · intro msg h
    rw [show milestone_parse_due_date "2025-06-15 hello" = .ok ⟨2025, 6, 15⟩
      from by decide] at h
    exact absurd h (by simp)

/-- C7 (amended): milestone due-date parsing accepts a bare four-digit year
`0001`-`9999` (as December 31), a zero-padded `YYYY-MM-DD` date followed by
*any* suffix (which covers full ISO-8601 date-times and also trailing
garbage, since only the first 10 characters are consulted by the
fallbacks), a `YYYY/MM/DD` date and an `MM/DD/YYYY` date; every string
matching neither the bare-year pattern nor (on its first 10 characters)
one of the three date formats raises a descriptive validation error whose
message embeds the offending input, never a silent default date. -/
theorem milestone_parse_formats :
    (∀ y : Nat, 1 ≤ y → y ≤ 9999 →
      milestone_parse_due_date ⟨pad4 y⟩ = .ok ⟨y, 12, 31⟩) ∧
    (∀ (y m d : Nat) (rest : List Char), validDate y m d = true →
      milestone_parse_due_date ⟨(pad4 y ++ '-' :: (pad2 m ++ '-' :: pad2 d)) ++ rest⟩ =
        .ok ⟨y, m, d⟩) ∧
    (∀ y m d : Nat, validDate y m d = true →
      milestone_parse_due_date ⟨pad4 y ++ '/' :: (pad2 m ++ '/' :: pad2 d)⟩ =
        .ok ⟨y, m, d⟩) ∧
    (∀ y m d : Nat, validDate y m d = true →
      milestone_parse_due_date ⟨pad2 m ++ '/' :: (pad2 d ++ '/' :: pad4 y)⟩ =
        .ok ⟨y, m, d⟩) ∧
    (∀ s : String, ¬ (s.length = 4 ∧ s.data.all Char.isDigit = true) →
      strptime_Ymd_dash (s.data.take 10) = none →
      strptime_Ymd_slash (s.data.take 10) = none →
      strptime_mdY (s.data.take 10) = none →
      ∃ msg, milestone_parse_due_date s = .error msg ∧ s.data <:+: msg.data) :=
  ⟨fun _ h1 h2 => parse_pad4_year h1 h2,
   fun _ _ _ rest h => parse_dash_with_rest rest h,
   fun _ _ _ h => parse_slash_date h,
   fun _ _ _ h => parse_mdY_date h,
   fun _ h4 h1 h2 h3 => parse_unmatched h4 h1 h2 h3⟩

/-- Witness for `milestone_parse_formats` at concrete inputs: a full
ISO-8601 date-time parses, and a garbage string raises with the input in
the message. -/
theorem milestone_parse_formats_witness :
    milestone_parse_due_date
        ⟨(pad4 2025 ++ '-' :: (pad2 6 ++ '-' :: pad2 15)) ++ "T10:00:00Z".data⟩ =
      .ok ⟨2025, 6, 15⟩ ∧
    ∃ msg, milestone_parse_due_date "not a date!!" = .error msg ∧
      ("not a date!!" : String).data <:+: msg.data :=
  ⟨milestone_parse_formats.2.1 2025 6 15 "T10:00:00Z".data (by decide),
   milestone_parse_formats.2.2.2.2 "not a date!!" (by decide) (by decide)
     (by decide) (by decide)⟩

/-- C10 counterexample: `"0000"` consists of exactly four digits, but
`datetime(0, 12, 31)` is out of range, so milestone creation raises
instead of producing December 31 of year 0. -/
theorem milestone_bare_year_zero_counterexample :
    milestone_parse_due_date "0000" ≠ .ok ⟨0, 12, 31⟩ ∧
    ∃ msg, milestone_parse_due_date "0000" = .error msg := by
  constructor
  · decide
  · exact ⟨_, rfl⟩

/-- C10 (amended): for every due-date string consisting of exactly four
digits giving a year from 0001 to 9999, the created milestone's due date
is December 31 of that year; for the four-digit string `"0000"` creation
raises a validation error embedding the input. -/
theorem milestone_bare_year (y : Nat) (h1 : 1 ≤ y) (h2 : y ≤ 9999) :
    milestone_parse_due_date ⟨pad4 y⟩ = .ok ⟨y, 12, 31⟩ ∧
    ∃ msg, milestone_parse_due_date "0000" = .error msg ∧
      ("0000" : String).data <:+: msg.data := by
  refine ⟨parse_pad4_year h1 h2,
    "Invalid due_date format '0000': year 0 is out of range. Expected ISO format (YYYY-MM-DD) or year (YYYY).",
    by decide, ?_⟩
  exact ⟨"Invalid due_date format '".data,
    "': year 0 is out of range. Expected ISO format (YYYY-MM-DD) or year (YYYY).".data,
    by decide⟩

/-- Witness for `milestone_bare_year` at the concrete year 2025. -/
theorem milestone_bare_year_witness :
    milestone_parse_due_date ⟨pad4 2025⟩ = .ok ⟨2025, 12, 31⟩ :=
  (milestone_bare_year 2025 (by decide) (by decide)).1

end GhPm

namespace GhPm

/-! ## Python values
(shared by the sprint-repository and tool-validator embeddings) -/

/-- A Python value as handled by the coercion and payload-building code:
`None`, booleans, integers, strings, lists and string-keyed dicts. -/
inductive PyVal where
  | none
  | pbool (b : Bool)
  | pint (n : Int)
  | pstr (s : String)
  | plist (xs : List PyVal)
  | pdict (fields : List (String × PyVal))
deriving Repr

/-- Python truthiness. -/
def pyTruthy : PyVal → Bool
  | .none => false
  | .pbool b => b
  | .pint n => n ≠ 0
  | .pstr s => !s.isEmpty
  | .plist xs => !xs.isEmpty
  | .pdict fs => !fs.isEmpty

/-- `dict.get(k, default)`. -/
def pyGet (fs : List (String × PyVal)) (k : String) (dflt : PyVal) : PyVal :=
  match fs.lookup k with
  | some v => v
  | Option.none => dflt

mutual

/-- Python `repr` of a value (single-quoted strings; escaping is not
modelled, the inputs in scope contain no quotes or backslashes). -/
def pyRepr : PyVal → String
  | .none => "None"
  | .pbool true => "True"
  | .pbool false => "False"
  | .pint n => toString n
  | .pstr s => "'" ++ s ++ "'"
  | .plist xs => "[" ++ pyReprItems xs ++ "]"
  | .pdict fs => "\x7b" ++ pyReprFields fs ++ "\x7d"

/-- `repr` of list items, comma-separated. -/
def pyReprItems : List PyVal → String
  | [] => ""
  | [x] => pyRepr x
  | x :: xs => pyRepr x ++ ", " ++ pyReprItems xs

/-- `repr` of dict entries, comma-separated. -/
def pyReprFields : List (String × PyVal) → String
  | [] => ""
  | [(k, v)] => "'" ++ k ++ "': " ++ pyRepr v
  | (k, v) :: fs => "'" ++ k ++ "': " ++ pyRepr v ++ ", " ++ pyReprFields fs

end

/-- Python `str()`: the string itself for strings, `repr` otherwise. -/
def pyStr : PyVal → String
  | .pstr s => s
  | v => pyRepr v

mutual

/-- `json.dumps` of a value, without the whitespace introduced by
`indent=2` (irrelevant to the `"null" in ...` substring check it feeds)
and without string escaping (the inputs in scope contain no quotes or
backslashes). -/
def jsonDumps : PyVal → String
  | .none => "null"
  | .pbool true => "true"
  | .pbool false => "false"
  | .pint n => toString n
  | .pstr s => "\"" ++ s ++ "\""
  | .plist xs => "[" ++ jsonDumpsItems xs ++ "]"
  | .pdict fs => "\x7b" ++ jsonDumpsFields fs ++ "\x7d"

/-- `json.dumps` of list items. -/
def jsonDumpsItems : List PyVal → String
  | [] => ""
  | [x] => jsonDumps x
  | x :: xs => jsonDumps x ++ ", " ++ jsonDumpsItems xs

/-- `json.dumps` of dict entries. -/
def jsonDumpsFields : List (String × PyVal) → String
  | [] => ""
  | [(k, v)] => "\"" ++ k ++ "\": " ++ jsonDumps v
  | (k, v) :: fs => "\"" ++ k ++ "\": " ++ jsonDumps v ++ ", " ++ jsonDumpsFields fs

end

end GhPm

namespace GhPm

/-! ## Sprint repository (`github_sprint_repository.py` lines 196-313) -/

/-- Rata-die style day number of a date (Howard Hinnant's
`days_from_civil`); `(end - start).days` for midnight datetimes equals the
difference of day numbers. -/
def ratadie (dt : Date) : Int :=
  let y : Int := if dt.month ≤ 2 then (dt.year : Int) - 1 else (dt.year : Int)
  let era : Int := (if y ≥ 0 then y else y - 399) / 400
  let yoe : Int := y - era * 400
  let mp : Int := ((dt.month : Int) + 9) % 12
  let doy : Int := (153 * mp + 2) / 5 + (dt.day : Int) - 1
  let doe : Int := yoe * 365 + yoe / 4 - yoe / 100 + doy
  era * 146097 + doe - 719468

/-- `d.strftime("%Y-%m-%d")` (for years up to 9999). -/
def strftimeYmd (dt : Date) : String :=
  ⟨pad4 dt.year ++ '-' :: (pad2 dt.month ++ '-' :: pad2 dt.day)⟩

/-- `int(v)` on the values the sprint code feeds it.  Strings are not
modelled (wire durations are JSON numbers); an unconvertible value
corresponds to a raised `TypeError`. -/
def pyToInt : PyVal → Option Int
  | .pint n => some n
  | .pbool b => some (if b then 1 else 0)
  | _ => Option.none

/-- The `formatted_existing` loop (lines 202-221): non-dict entries and
entries with falsy `title`/`startDate`/`duration` are skipped; surviving
entries are rebuilt with only `title`/`startDate`/`duration` keys (no
`id`). -/
def formatExisting : List PyVal → Except String (List PyVal)
  | [] => .ok []
  | it :: rest =>
    match it with
    | .pdict fs =>
      let t := pyGet fs "title" (.pstr "")
      let sd := pyGet fs "startDate" (.pstr "")
      let dur := pyGet fs "duration" (.pint 7)
      if !(pyTruthy t) || !(pyTruthy sd) || !(pyTruthy dur) then
        formatExisting rest
      else
        match pyToInt dur with
        | some n =>
          match formatExisting rest with
          | .ok tail =>
            .ok (.pdict [("title", .pstr (pyStr t)),
                         ("startDate", .pstr (pyStr sd)),
                         ("duration", .pint n)] :: tail)
          | .error e => .error e
        | Option.none => .error "int() argument must be a number"
    | _ => formatExisting rest

/-- `iter.get("duration", 0) <= 0` in the validation loop (non-integer
durations cannot occur in the constructed payload). -/
def durLe0 : PyVal → Bool
  | .pint n => decide (n ≤ 0)
  | _ => false

/-- The validation loop over `all_iterations` (lines 244-246). -/
def validateIterations : List PyVal → Nat → Except String Unit
  | [], _ => .ok ()
  | it :: rest, idx =>
    match it with
    | .pdict fs =>
      if !(pyTruthy (pyGet fs "title" .none))
          || !(pyTruthy (pyGet fs "startDate" .none))
          || durLe0 (pyGet fs "duration" (.pint 0)) then
        .error ("Invalid iteration at index " ++ toString idx ++ ": " ++ pyRepr it)
      else validateIterations rest (idx + 1)
    | it => .error ("Invalid iteration at index " ++ toString idx ++ ": " ++ pyRepr it)

/-- Python `min` over a list of strings (lexicographic by code point;
`none` for the empty list, where Python raises). -/
def pyMinStr : List String → Option String
  | [] => Option.none
  | h :: t => some (t.foldl (fun a b => if b < a then b else a) h)

/-- The `all_start_dates` comprehension (line 274): the `startDate` values
of the iterations whose `startDate` is truthy.  All constructed iterations
carry string `startDate`s. -/
def allStartDates (its : List PyVal) : List String :=
  its.filterMap fun it =>
    match it with
    | .pdict fs =>
      match pyGet fs "startDate" (.pstr "") with
      | .pstr s => if s.isEmpty then Option.none else some s
      | _ => Option.none
    | _ => Option.none

/-- `GitHubSprintRepository.create`, lines 196-301: from the parsed
start/end dates, the caller's title and the existing iterations read from
the field configuration, build the `iterationConfiguration` dict that the
`updateProjectV2Field` mutation will carry (or raise).  An `.error` models
a raised `ValueError`. -/
def sprint_iteration_config (title : String) (start_date end_date : Date)
    (existing_iterations : List PyVal) : Except String PyVal :=
  let iteration_duration : Int := (ratadie end_date - ratadie start_date) + 1
  match formatExisting existing_iterations with
  | .error e => .error e
  | .ok formatted_existing =>
    let new_iteration : PyVal := .pdict
      [("title", .pstr title),
       ("startDate", .pstr (strftimeYmd start_date)),
       ("duration", .pint iteration_duration)]
    if !(pyTruthy (.pstr title)) || !(pyTruthy (.pstr (strftimeYmd start_date)))
        || iteration_duration ≤ 0 then
      .error ("Invalid iteration data: " ++ pyRepr new_iteration)
    else
      let all_iterations := formatted_existing ++ [new_iteration]
      match validateIterations all_iterations 0 with
      | .error e => .error e
      | .ok _ =>
        let config_start_date :=
          match pyMinStr (allStartDates all_iterations) with
          | some mn => mn
          | Option.none => strftimeYmd start_date
        let config_start_date :=
          if config_start_date.isEmpty || config_start_date = "None" then
            strftimeYmd start_date
          else config_start_date
        let config_duration : Int := 14
        .ok (.pdict
          [("startDate", .pstr config_start_date),
           ("duration", .pint config_duration),
           ("iterations", .plist all_iterations)])

/-- The full payload step including the `json.dumps` `"null"` scan (lines
292-311): builds `input_data` and raises if its serialization contains the
substring `"null"` (case-insensitively). -/
def sprint_build_input (fieldId : String) (title : String)
    (start_date end_date : Date) (existing_iterations : List PyVal) :
    Except String PyVal :=
  match sprint_iteration_config title start_date end_date existing_iterations with
  | .error e => .error e
  | .ok cfg =>
    let input_data : PyVal := .pdict
      [("fieldId", .pstr fieldId), ("iterationConfiguration", cfg)]
    if containsSub "null" (pyLower (jsonDumps input_data)) then
      .error ("Found null in serialized input: " ++ jsonDumps input_data)
    else .ok input_data

/-- A wire iteration as returned by the `ProjectV2IterationField`
configuration query (id, title, startDate, duration). -/
structure WireIteration where
  id : String
  title : String
  startDate : String
  duration : Int

/-- The JSON object shape of a wire iteration. -/
def WireIteration.toPyVal (w : WireIteration) : PyVal :=
  .pdict [("id", .pstr w.id), ("title", .pstr w.title),
          ("startDate", .pstr w.startDate), ("duration", .pint w.duration)]

/-- The id-less rewrite of a wire iteration produced by the
`formatted_existing` loop. -/
def WireIteration.toFormatted (w : WireIteration) : PyVal :=
  .pdict [("title", .pstr w.title), ("startDate", .pstr w.startDate),
          ("duration", .pint w.duration)]

end GhPm

namespace GhPm

/-- A non-empty string has `isEmpty = false`. -/
theorem isEmpty_false_of_ne {s : String} (h : s ≠ "") : s.isEmpty = false := by
  rw [Bool.eq_false_iff]
  intro hc
  exact h ((String.isEmpty_iff s).mp hc)

/-- On well-formed wire iterations the `formatted_existing` loop keeps every
entry, rewritten without its `id`. -/
theorem formatExisting_map (ws : List WireIteration)
    (h : ∀ w ∈ ws, w.title ≠ "" ∧ w.startDate ≠ "" ∧ 0 < w.duration) :
    formatExisting (ws.map WireIteration.toPyVal) =
      .ok (ws.map WireIteration.toFormatted) := by
  induction ws with
  | nil => rfl
  | cons w rest ih =>
    obtain ⟨ht, hsd, hdur⟩ := h w (by simp)
    have hrest := ih (fun x hx => h x (by simp [hx]))
    have e1 : pyGet [("id", PyVal.pstr w.id), ("title", PyVal.pstr w.title),
        ("startDate", PyVal.pstr w.startDate), ("duration", PyVal.pint w.duration)]
        "title" (.pstr "") = .pstr w.title := rfl
    have e2 : pyGet [("id", PyVal.pstr w.id), ("title", PyVal.pstr w.title),
        ("startDate", PyVal.pstr w.startDate), ("duration", PyVal.pint w.duration)]
        "startDate" (.pstr "") = .pstr w.startDate := rfl
    have e3 : pyGet [("id", PyVal.pstr w.id), ("title", PyVal.pstr w.title),
        ("startDate", PyVal.pstr w.startDate), ("duration", PyVal.pint w.duration)]
        "duration" (.pint 7) = .pint w.duration := rfl
    have t1 : pyTruthy (.pstr w.title) = true := by
      simp [pyTruthy, isEmpty_false_of_ne ht]
    have t2 : pyTruthy (.pstr w.startDate) = true := by
      simp [pyTruthy, isEmpty_false_of_ne hsd]
    have t3 : pyTruthy (.pint w.duration) = true := by
      simp [pyTruthy]
      omega
    simp only [List.map_cons, formatExisting, WireIteration.toPyVal,
      e1, e2, e3, t1, t2, t3, Bool.not_true, Bool.or_self, Bool.false_or,
      Bool.or_false, pyToInt, hrest]
    simp [WireIteration.toFormatted, pyStr]

/-- The validation loop accepts any list of well-formed id-less
iterations. -/
theorem validateIterations_ok (l : List PyVal)
    (h : ∀ it ∈ l, ∃ (t sd : String) (dur : Int),
      it = .pdict [("title", .pstr t), ("startDate", .pstr sd),
        ("duration", .pint dur)] ∧ t ≠ "" ∧ sd ≠ "" ∧ 0 < dur) :
    ∀ n, validateIterations l n = .ok () := by
  induction l with
  | nil => intro n; rfl
  | cons it rest ih =>
    intro n
    obtain ⟨t, sd, dur, rfl, ht, hsd, hdur⟩ := h it (by simp)
    have e1 : pyGet [("title", PyVal.pstr t), ("startDate", PyVal.pstr sd),
        ("duration", PyVal.pint dur)] "title" .none = .pstr t := rfl
    have e2 : pyGet [("title", PyVal.pstr t), ("startDate", PyVal.pstr sd),
        ("duration", PyVal.pint dur)] "startDate" .none = .pstr sd := rfl
    have e3 : pyGet [("title", PyVal.pstr t), ("startDate", PyVal.pstr sd),
        ("duration", PyVal.pint dur)] "duration" (.pint 0) = .pint dur := rfl
    have t1 : pyTruthy (.pstr t) = true := by
      simp [pyTruthy, isEmpty_false_of_ne ht]
    have t2 : pyTruthy (.pstr sd) = true := by
      simp [pyTruthy, isEmpty_false_of_ne hsd]
    have t3 : durLe0 (.pint dur) = false := by
      simp [durLe0]
      omega
    simp only [validateIterations, e1, e2, e3, t1, t2, t3, Bool.not_true,
      Bool.or_self, Bool.false_or, Bool.or_false, if_false]
    exact ih (fun x hx => h x (by simp [hx])) (n + 1)

/-- `strftime("%Y-%m-%d")` never renders the empty string. -/
theorem strftimeYmd_ne_empty (dt : Date) : strftimeYmd dt ≠ "" := by
  simp [strftimeYmd, pad4, pad2, String.ext_iff]

/-- `strftime("%Y-%m-%d")` never renders the string `"None"`. -/
theorem strftimeYmd_ne_None (dt : Date) : strftimeYmd dt ≠ "None" := by
  intro h
  have := congrArg (fun s => s.data.length) h
  simp [strftimeYmd, pad4, pad2] at this

/-- `allStartDates` on the constructed payload lists every iteration's
`startDate`. -/
theorem allStartDates_payload (ws : List WireIteration) (new : PyVal)
    (hws : ∀ w ∈ ws, w.startDate ≠ "")
    (t : String) (sd : String) (dur : Int)
    (hnew : new = .pdict [("title", .pstr t), ("startDate", .pstr sd),
      ("duration", .pint dur)])
    (hsd : sd ≠ "") :
    allStartDates (ws.map WireIteration.toFormatted ++ [new]) =
      ws.map WireIteration.startDate ++ [sd] := by
  subst hnew
  unfold allStartDates
  rw [List.filterMap_append]
  congr 1
  · induction ws with
    | nil => rfl
    | cons w rest ih =>
      have hw := hws w (by simp)
      have e : pyGet [("title", PyVal.pstr w.title),
          ("startDate", PyVal.pstr w.startDate),
          ("duration", PyVal.pint w.duration)] "startDate" (.pstr "") =
          .pstr w.startDate := rfl
      simp only [List.map_cons, List.filterMap_cons, WireIteration.toFormatted, e]
      rw [if_neg (by simp [isEmpty_false_of_ne hw])]
      simp only [List.map_cons]
      rw [ih (fun x hx => hws x (by simp [hx]))]
  · have e : pyGet [("title", PyVal.pstr t), ("startDate", PyVal.pstr sd),
        ("duration", PyVal.pint dur)] "startDate" (.pstr "") = .pstr sd := rfl
    simp only [List.filterMap_cons, e]
    rw [if_neg (by simp [isEmpty_false_of_ne hsd])]
    rfl

/-- Python `min` returns an element of its argument. -/
theorem pyMinStr_mem {l : List String} {m : String}
    (h : pyMinStr l = some m) : m ∈ l := by
  cases l with
  | nil => exact absurd h (by simp [pyMinStr])
  | cons a t =>
    simp only [pyMinStr, Option.some.injEq] at h
    subst h
    have : ∀ (t : List String) (a : String),
        t.foldl (fun x y => if y < x then y else x) a ∈ a :: t := by
      intro t
      induction t with
      | nil => intro a; simp
      | cons b t ih =>
        intro a
        simp only [List.foldl_cons]
        have hmem := ih (if b < a then b else a)
        rw [List.mem_cons] at hmem
        rcases hmem with h | h
        · rw [h]
          by_cases hb : b < a
          · simp [hb]
          · simp [hb]
        · simp only [List.mem_cons] at h ⊢
          tauto
    exact this t a

end GhPm

namespace GhPm

/-- The new iteration appended by sprint creation: no `id` key, and a
duration of `(end_date - start_date).days + 1`. -/
def sprintNewIteration (title : String) (start_date end_date : Date) : PyVal :=
  .pdict [("title", .pstr title),
          ("startDate", .pstr (strftimeYmd start_date)),
          ("duration", .pint ((ratadie end_date - ratadie start_date) + 1))]

/-- C4: creating a sprint over an iteration field whose configuration holds
`N` well-formed iterations (non-empty title and startDate, positive
duration; `"None"`-free startDates as GitHub serves ISO dates) writes back
a configuration with exactly `N + 1` iterations, none carrying an `id`
key; the appended iteration is last and its duration is
`(end_date - start_date).days + 1`; the configuration-level `startDate` is
the (string) minimum start date across all iterations and the
configuration-level `duration` is the fixed 14-day default.  The final
conjunct: whenever the serialized payload passes the `"null"` scan, that
configuration is exactly what the `updateProjectV2Field` input carries. -/
theorem sprint_create_config (fieldId title : String) (start_date end_date : Date)
    (ws : List WireIteration)
    (hws : ∀ w ∈ ws, w.title ≠ "" ∧ w.startDate ≠ "" ∧ 0 < w.duration)
    (hsdN : ∀ w ∈ ws, w.startDate ≠ "None")
    (htitle : title ≠ "")
    (hdur : 0 < (ratadie end_date - ratadie start_date) + 1) :
    ∃ mn,
      pyMinStr (ws.map WireIteration.startDate ++ [strftimeYmd start_date]) = some mn ∧
      sprint_iteration_config title start_date end_date (ws.map WireIteration.toPyVal) =
        .ok (.pdict [("startDate", .pstr mn), ("duration", .pint 14),
          ("iterations", .plist (ws.map WireIteration.toFormatted ++
            [sprintNewIteration title start_date end_date]))]) ∧
      (ws.map WireIteration.toFormatted ++
        [sprintNewIteration title start_date end_date]).length = ws.length + 1 ∧
      (∀ it ∈ ws.map WireIteration.toFormatted ++
          [sprintNewIteration title start_date end_date],
        ∃ fs, it = .pdict fs ∧ fs.lookup "id" = Option.none) ∧
      (ws.map WireIteration.toFormatted ++
        [sprintNewIteration title start_date end_date]).getLast? =
          some (sprintNewIteration title start_date end_date) ∧
      (∀ cfg, cfg = PyVal.pdict [("startDate", .pstr mn), ("duration", .pint 14),
          ("iterations", .plist (ws.map WireIteration.toFormatted ++
            [sprintNewIteration title start_date end_date]))] →
        containsSub "null" (pyLower (jsonDumps (.pdict [("fieldId", .pstr fieldId),
          ("iterationConfiguration", cfg)]))) = false →
        sprint_build_input fieldId title start_date end_date
            (ws.map WireIteration.toPyVal) =
          .ok (.pdict [("fieldId", .pstr fieldId),
            ("iterationConfiguration", cfg)])) := by
  obtain ⟨mn, hmn⟩ : ∃ mn,
      pyMinStr (ws.map WireIteration.startDate ++ [strftimeYmd start_date]) = some mn := by
    rcases hl : ws.map WireIteration.startDate ++ [strftimeYmd start_date] with _ | ⟨a, t⟩
    · exact absurd hl (by simp)
    · exact ⟨_, rfl⟩
  have hmem := pyMinStr_mem hmn
  have hmn_ne : mn ≠ "" ∧ mn ≠ "None" := by
    rw [List.mem_append] at hmem
    rcases hmem with hmem | hmem
    · obtain ⟨w, hw, rfl⟩ := List.mem_map.mp hmem
      exact ⟨(hws w hw).2.1, hsdN w hw⟩
    · simp only [List.mem_singleton] at hmem
      subst hmem
      exact ⟨strftimeYmd_ne_empty _, strftimeYmd_ne_None _⟩
  have c1 : pyTruthy (.pstr title) = true := by
    simp [pyTruthy, isEmpty_false_of_ne htitle]
  have c2 : pyTruthy (.pstr (strftimeYmd start_date)) = true := by
    simp [pyTruthy, isEmpty_false_of_ne (strftimeYmd_ne_empty start_date)]
  have hval : validateIterations (ws.map WireIteration.toFormatted ++
      [sprintNewIteration title start_date end_date]) 0 = .ok () := by
    apply validateIterations_ok
    intro it hit
    rw [List.mem_append] at hit
    rcases hit with hit | hit
    · obtain ⟨w, hw, rfl⟩ := List.mem_map.mp hit
      obtain ⟨h1, h2, h3⟩ := hws w hw
      exact ⟨w.title, w.startDate, w.duration, rfl, h1, h2, h3⟩
    · simp only [List.mem_singleton] at hit
      subst hit
      exact ⟨title, strftimeYmd start_date,
        (ratadie end_date - ratadie start_date) + 1, rfl, htitle,
        strftimeYmd_ne_empty _, hdur⟩
  have hsd' : allStartDates (ws.map WireIteration.toFormatted ++
      [sprintNewIteration title start_date end_date]) =
      ws.map WireIteration.startDate ++ [strftimeYmd start_date] := by
    exact allStartDates_payload ws _ (fun w hw => (hws w hw).2.1)
      title (strftimeYmd start_date) ((ratadie end_date - ratadie start_date) + 1)
      rfl (strftimeYmd_ne_empty _)
  have hmain : sprint_iteration_config title start_date end_date
      (ws.map WireIteration.toPyVal) =
      .ok (.pdict [("startDate", .pstr mn), ("duration", .pint 14),
        ("iterations", .plist (ws.map WireIteration.toFormatted ++
          [sprintNewIteration title start_date end_date]))]) := by
    unfold sprint_iteration_config
    rw [formatExisting_map ws hws]
    dsimp only
    rw [if_neg (by simp [c1, c2]; omega)]
    rw [show (PyVal.pdict [("title", .pstr title),
        ("startDate", .pstr (strftimeYmd start_date)),
        ("duration", .pint ((ratadie end_date - ratadie start_date) + 1))]) =
      sprintNewIteration title start_date end_date from rfl]
    rw [hval]
    dsimp only
    rw [hsd', hmn]
    rw [if_neg (by simp [isEmpty_false_of_ne hmn_ne.1, hmn_ne.2])]
  refine ⟨mn, hmn, hmain, by simp, ?_, List.getLast?_concat _, ?_⟩
  · intro it hit
    rw [List.mem_append] at hit
    rcases hit with hit | hit
    · obtain ⟨w, hw, rfl⟩ := List.mem_map.mp hit
      exact ⟨_, rfl, rfl⟩
    · simp only [List.mem_singleton] at hit
      subst hit
      exact ⟨_, rfl, rfl⟩
  · intro cfg hcfg hnull
    subst hcfg
    unfold sprint_build_input
    rw [hmain]
    dsimp only
    rw [if_neg (by simp [hnull])]

/-- Witness for `sprint_create_config` at concrete inputs: one existing
iteration, a new 14-day sprint. -/
theorem sprint_create_config_witness :
    ∃ mn,
      pyMinStr ([⟨"it1", "Sprint 1", "2025-01-01", 14⟩].map
          WireIteration.startDate ++ [strftimeYmd ⟨2025, 1, 15⟩]) = some mn ∧
      sprint_iteration_config "Sprint 2" ⟨2025, 1, 15⟩ ⟨2025, 1, 28⟩
          ([⟨"it1", "Sprint 1", "2025-01-01", 14⟩].map WireIteration.toPyVal) =
        .ok (.pdict [("startDate", .pstr mn), ("duration", .pint 14),
          ("iterations", .plist ([⟨"it1", "Sprint 1", "2025-01-01", 14⟩].map
              WireIteration.toFormatted ++
            [sprintNewIteration "Sprint 2" ⟨2025, 1, 15⟩ ⟨2025, 1, 28⟩]))]) ∧
      (([⟨"it1", "Sprint 1", "2025-01-01", 14⟩] :
          List WireIteration).map WireIteration.toFormatted ++
        [sprintNewIteration "Sprint 2" ⟨2025, 1, 15⟩ ⟨2025, 1, 28⟩]).length = 1 + 1 ∧
      (∀ it ∈ ([⟨"it1", "Sprint 1", "2025-01-01", 14⟩] :
            List WireIteration).map WireIteration.toFormatted ++
          [sprintNewIteration "Sprint 2" ⟨2025, 1, 15⟩ ⟨2025, 1, 28⟩],
        ∃ fs, it = .pdict fs ∧ fs.lookup "id" = Option.none) ∧
      (([⟨"it1", "Sprint 1", "2025-01-01", 14⟩] :
          List WireIteration).map WireIteration.toFormatted ++
        [sprintNewIteration "Sprint 2" ⟨2025, 1, 15⟩ ⟨2025, 1, 28⟩]).getLast? =
          some (sprintNewIteration "Sprint 2" ⟨2025, 1, 15⟩ ⟨2025, 1, 28⟩) ∧
      (∀ cfg, cfg = PyVal.pdict [("startDate", .pstr mn), ("duration", .pint 14),
          ("iterations", .plist (([⟨"it1", "Sprint 1", "2025-01-01", 14⟩] :
              List WireIteration).map WireIteration.toFormatted ++
            [sprintNewIteration "Sprint 2" ⟨2025, 1, 15⟩ ⟨2025, 1, 28⟩]))] →
        containsSub "null" (pyLower (jsonDumps (.pdict [("fieldId", .pstr "F1"),
          ("iterationConfiguration", cfg)]))) = false →
        sprint_build_input "F1" "Sprint 2" ⟨2025, 1, 15⟩ ⟨2025, 1, 28⟩
            (([⟨"it1", "Sprint 1", "2025-01-01", 14⟩] :
              List WireIteration).map WireIteration.toPyVal) =
          .ok (.pdict [("fieldId", .pstr "F1"),
            ("iterationConfiguration", cfg)])) := by
  have h := sprint_create_config "F1" "Sprint 2" ⟨2025, 1, 15⟩ ⟨2025, 1, 28⟩
    [⟨"it1", "Sprint 1", "2025-01-01", 14⟩]
    (by intro w hw; simp only [List.mem_singleton] at hw; subst hw
        exact ⟨by decide, by decide, by decide⟩)
    (by intro w hw; simp only [List.mem_singleton] at hw; subst hw; decide)
    (by decide) (by decide)
  exact h

end GhPm

namespace GhPm

/-! ## Tool argument validator: the `options` coercion
(`tool_validator.py` lines 62-152) -/

/-- Leading-space skipping (the only whitespace the inputs in scope use). -/
def skipWs (l : List Char) : List Char := l.dropWhile (· = ' ')

/-- Python whitespace for `str.strip()`. -/
def isPyWs (c : Char) : Bool :=
  c = ' ' || c = '\t' || c = '\n' || c = '\r' || c = '\x0b' || c = '\x0c'

/-- `str.strip(chars)`: drop characters satisfying `p` from both ends. -/
def stripChars (p : Char → Bool) (l : List Char) : List Char :=
  ((l.dropWhile p).reverse.dropWhile p).reverse

/-- `s.strip()`. -/
def pyStripWs (s : String) : String := ⟨stripChars isPyWs s.data⟩

/-- The single-quote character. -/
def squote : Char := Char.ofNat 39

/-- The double-quote character. -/
def dquote : Char := '"'

/-- `item.strip('"').strip("'")`. -/
def stripQuotes (l : List Char) : List Char :=
  stripChars (· = squote) (stripChars (· = dquote) l)

/-- If `splitFirst` finds the (nonempty) separator, the remainder is
strictly shorter than the input. -/
theorem splitFirst_rest_length {sep : List Char} (hsep : sep ≠ []) :
    ∀ {l p r : List Char}, splitFirst sep l = some (p, r) → r.length < l.length := by
  intro l
  induction l with
  | nil => intro p r h; simp [splitFirst] at h
  | cons c t ih =>
    intro p r h
    rw [splitFirst] at h
    split at h
    · simp only [Option.some.injEq, Prod.mk.injEq] at h
      obtain ⟨-, rfl⟩ := h
      rcases sep with _ | ⟨s0, sep'⟩
      · exact absurd rfl hsep
      · simp only [List.length_drop, List.length_cons]
        omega
    · cases hrec : splitFirst sep t with
      | none => rw [hrec] at h; simp at h
      | some pr =>
        obtain ⟨p', r'⟩ := pr
        rw [hrec] at h
        simp only [Option.some.injEq, Prod.mk.injEq] at h
        obtain ⟨-, rfl⟩ := h
        have := ih hrec
        simp only [List.length_cons]
        omega

/-- Python's `str.split(sep)` for a nonempty separator (the empty-separator
branch is unreachable: Python raises there). -/
def pySplit (sep : List Char) (l : List Char) : List (List Char) :=
  if hsep : sep = [] then [l]
  else
    match hs : splitFirst sep l with
    | some (p, r) => p :: pySplit sep r
    | none => [l]
termination_by l.length
decreasing_by
  exact splitFirst_rest_length hsep hs

/-- One quoted item of the modelled JSON/Python-literal array grammar. -/
def quoteItem (q : Char) (n : List Char) : List Char := q :: (n ++ [q])

/-- Items joined by a separator (`sep.join`-style). -/
def joinSep (sep : List Char) : List (List Char) → List Char
  | [] => []
  | [n] => n
  | n :: rest => n ++ sep ++ joinSep sep rest

/-- The item list of a bracketed array of `q`-quoted escape-free strings:
after the opening bracket, parse `q`-quoted items separated by commas
(with optional spaces) up to the closing bracket, returning the items and
the rest of the input. -/
def parseStrItems (q : Char) : Nat → List Char → Option (List String × List Char)
  | 0, _ => Option.none
  | fuel + 1, l =>
    match skipWs l with
    | c :: t =>
      if c = q then
        match splitFirst [q] t with
        | some (content, rest) =>
          match skipWs rest with
          | c2 :: t2 =>
            if c2 = ',' then
              match parseStrItems q fuel t2 with
              | some (items, rest2) => some (⟨content⟩ :: items, rest2)
              | Option.none => Option.none
            else if c2 = ']' then some ([⟨content⟩], t2)
            else Option.none
          | [] => Option.none
        | Option.none => Option.none
      else Option.none
    | [] => Option.none

/-- A full array of `q`-quoted strings with only trailing whitespace
afterwards. -/
def parseStrArray (q : Char) (s : String) : Option (List String) :=
  match skipWs s.data with
  | c :: t =>
    if c = '[' then
      match skipWs t with
      | c2 :: t2 =>
        if c2 = ']' then (if (skipWs t2).isEmpty then some [] else Option.none)
        else
          match parseStrItems q (t.length + 1) t with
          | some (items, rest) =>
            if (skipWs rest).isEmpty then some items else Option.none
          | Option.none => Option.none
      | [] => Option.none
    else Option.none
  | [] => Option.none

/-- Fragment of `json.loads` sufficient for the claims in scope: arrays of
double-quoted escape-free strings (every other input is rejected).  Real
`json.loads` also accepts other JSON documents, including the bare
constants `NaN`/`Infinity` (as floats); the quantified inputs keep clear
of all of them — `simpleName` excludes the bare constants and the other
rendered shapes contain spaces, commas or single quotes that make them
invalid JSON — so the fragment agrees with CPython on every input the
theorems touch. -/
def jsonLoads (s : String) : Option PyVal :=
  (parseStrArray dquote s).map (fun items => .plist (items.map .pstr))

/-- Fragment of `ast.literal_eval` sufficient for the claims in scope:
lists of single- or double-quoted escape-free strings.  Bare-name literals
(`None`/`True`/`False`) are outside the fragment; the quantified inputs
exclude them so the fragment agrees with CPython on every input the
theorems touch. -/
def astLiteralEval (s : String) : Option PyVal :=
  match parseStrArray squote s with
  | some items => some (.plist (items.map .pstr))
  | Option.none => (parseStrArray dquote s).map (fun items => .plist (items.map .pstr))

/-- The per-element rewrite of the `isinstance(options, list)` branch
(lines 120-139): dicts with a `name` key pass through unchanged, other
dicts and non-strings are wrapped as `{"name": str(opt)}`, strings become
`{"name": opt}`. -/
def coerceListElem (opt : PyVal) : PyVal :=
  match opt with
  | .pdict fs =>
    if (fs.lookup "name").isSome then .pdict fs
    else .pdict [("name", .pstr (pyStr (.pdict fs)))]
  | .pstr s => .pdict [("name", .pstr s)]
  | other => .pdict [("name", .pstr (pyStr other))]

/-- The separator-based part of the natural-language fallback (lines
96-119), applied to the cleaned string: split on `" or "`/`" and "`
(chosen case-insensitively, split case-sensitively) or on commas into
`{"name": item}` records, or treat the whole string as one option; an
empty remainder degrades to `None`. -/
def coerce_cleaned (cleaned : String) : PyVal :=
  if containsSub " or " (pyLower cleaned) || containsSub " and " (pyLower cleaned) then
    let separator := if containsSub " or " (pyLower cleaned) then " or " else " and "
    let items := (pySplit separator.data cleaned.data).map
      (fun item => stripQuotes (stripChars isPyWs item))
    .plist ((items.filter (fun i => !i.isEmpty)).map
      (fun i => .pdict [("name", .pstr ⟨i⟩)]))
  else if containsSub "," cleaned then
    let items := (pySplit [','] cleaned.data).map
      (fun item => stripQuotes (stripChars isPyWs item))
    .plist ((items.filter (fun i => !i.isEmpty)).map
      (fun i => .pdict [("name", .pstr ⟨i⟩)]))
  else
    let c2 := stripQuotes (stripChars isPyWs
      (stripChars (fun c => c = '[' || c = ']') cleaned.data))
    if c2.isEmpty then .none
    else .plist [.pdict [("name", .pstr ⟨c2⟩)]]

/-- The natural-language fallback parse of a string `options` value
(lines 84-119): strip, cut after a `" -> "` arrow, then apply the
separator-based parse. -/
def coerce_options_heuristic (s : String) : PyVal :=
  let cleaned := pyStripWs s
  let cleaned :=
    if containsSub " -> " cleaned then
      match splitFirst " -> ".data cleaned.data with
      | some (_, after) => pyStripWs ⟨after⟩
      | Option.none => cleaned
    else cleaned
  coerce_cleaned cleaned

/-- The `options` coercion step of `ToolValidator.validate` for
`create_project_field` (lines 62-152).  Totality models "never raises":
every failing parse inside the Python code is caught and falls through to
the next strategy or to `None`. -/
def coerce_options (options : PyVal) : PyVal :=
  match options with
  | .none => .none
  | .pstr s =>
    match jsonLoads s with
    | some v => v
    | Option.none =>
      match astLiteralEval s with
      | some v => v
      | Option.none => coerce_options_heuristic s
  | .plist xs => .plist (xs.map coerceListElem)
  | other =>
    let stripped := pyStripWs (pyStr other)
    if !stripped.isEmpty then .plist [.pdict [("name", .pstr stripped)]]
    else .none

/-- The shape the claim asserts for the coerced value: `None` or a list of
`{name: str}` records. -/
def isNameRecordList (v : PyVal) : Prop :=
  v = .none ∨ ∃ xs, v = .plist xs ∧
    ∀ x ∈ xs, ∃ fs s, x = .pdict fs ∧ fs.lookup "name" = some (.pstr s)

/-- An ASCII-uppercase letter. -/
def isUpperAlpha (c : Char) : Bool := 'A' ≤ c && c ≤ 'Z'

/-- The option-name strings the shape theorems quantify over: nonempty,
all ASCII letters, starting with an uppercase letter, and none of the
bare names `json.loads` or `ast.literal_eval` accepts — the Python
literals `None`/`True`/`False` and the JSON constants `NaN`/`Infinity` —
so that both parser fragments provably agree with CPython on every
rendered input. -/
def simpleName (s : String) : Bool :=
  match s.data with
  | [] => false
  | c0 :: _ =>
    isUpperAlpha c0 && s.data.all Char.isAlpha
      && s ≠ "None" && s ≠ "True" && s ≠ "False"
      && s ≠ "NaN" && s ≠ "Infinity"

/-- Rendering of an array of quoted names (`["High", "Low"]` with `q` the
quote character). -/
def renderArray (q : Char) (names : List String) : String :=
  ⟨'[' :: (joinSep [',', ' '] (names.map (fun n => quoteItem q n.data)) ++ [']'])⟩

/-- Rendering of names joined by a separator string (`"High, Low"`,
`"High or Low"`, ...). -/
def renderSepList (sep : String) (names : List String) : String :=
  ⟨joinSep sep.data (names.map String.data)⟩

end GhPm

namespace GhPm

theorem isPrefixOf_append_self (a b : List Char) : a.isPrefixOf (a ++ b) = true := by
  induction a with
  | nil => simp [List.isPrefixOf]
  | cons c t ih => simp [List.isPrefixOf, ih]

/-- `splitFirst` finds the separator exactly at the first position where it
occurs; when the separator's first character does not occur in `n`, the
occurrence after `n` is the first one. -/
theorem splitFirst_boundary {s0 : Char} {sep' : List Char} :
    ∀ {n t : List Char}, s0 ∉ n →
      splitFirst (s0 :: sep') (n ++ (s0 :: sep') ++ t) = some (n, t) := by
  intro n
  induction n with
  | nil =>
    intro t _
    show splitFirst (s0 :: sep') (s0 :: (sep' ++ t)) = some ([], t)
    rw [splitFirst]
    rw [if_pos (by exact isPrefixOf_append_self (s0 :: sep') t)]
    congr 1
    simp [List.drop_left]
  | cons c n' ih =>
    intro t hmem
    have hs0 : (s0 == c) = false := by
      rcases h : s0 == c with _ | _
      · rfl
      · exact absurd (by rw [beq_iff_eq.mp h]; exact List.mem_cons_self c n') hmem
    show splitFirst (s0 :: sep') (c :: (n' ++ (s0 :: sep') ++ t)) = some (c :: n', t)
    rw [splitFirst]
    rw [if_neg (by simp [List.isPrefixOf, hs0])]
    rw [ih (fun h => hmem (List.mem_cons_of_mem c h))]

/-- If the separator's first character never occurs, the separator is not
found. -/
theorem splitFirst_none {s0 : Char} {sep' : List Char} :
    ∀ {l : List Char}, s0 ∉ l → splitFirst (s0 :: sep') l = Option.none := by
  intro l
  induction l with
  | nil => intro _; rfl
  | cons c t ih =>
    intro hmem
    have hs0 : (s0 == c) = false := by
      rcases h : s0 == c with _ | _
      · rfl
      · exact absurd (by rw [beq_iff_eq.mp h]; exact List.mem_cons_self c t) hmem
    rw [splitFirst]
    rw [if_neg (by simp [List.isPrefixOf, hs0])]
    rw [ih (fun h => hmem (List.mem_cons_of_mem c h))]

/-- Unfolding of `pySplit` when the separator is found. -/
theorem pySplit_cons_of_splitFirst {sep l p r : List Char} (hsep : sep ≠ [])
    (h : splitFirst sep l = some (p, r)) : pySplit sep l = p :: pySplit sep r := by
  rw [pySplit, dif_neg hsep]
  split
  · rename_i p' r' heq
    rw [h] at heq
    simp only [Option.some.injEq, Prod.mk.injEq] at heq
    rw [heq.1, heq.2]
  · rename_i heq
    rw [h] at heq
    simp at heq

/-- Unfolding of `pySplit` when the separator is absent. -/
theorem pySplit_single_of_none {sep l : List Char} (hsep : sep ≠ [])
    (h : splitFirst sep l = Option.none) : pySplit sep l = [l] := by
  rw [pySplit, dif_neg hsep]
  split
  · rename_i p' r' heq
    rw [h] at heq
    simp at heq
  · rfl

/-- `str.split(sep)` inverts `sep.join(names)` when the separator's head
character occurs in no name. -/
theorem pySplit_joinSep (s0 : Char) (sep' : List Char) :
    ∀ (names : List (List Char)), names ≠ [] →
      (∀ n ∈ names, s0 ∉ n) →
      pySplit (s0 :: sep') (joinSep (s0 :: sep') names) = names := by
  intro names
  induction names with
  | nil => intro h; exact absurd rfl h
  | cons n rest ih =>
    intro _ hmem
    cases rest with
    | nil =>
      show pySplit (s0 :: sep') n = [n]
      rw [pySplit_single_of_none (by simp) (splitFirst_none (hmem n (by simp)))]
    | cons m rest' =>
      show pySplit (s0 :: sep') (n ++ (s0 :: sep') ++ joinSep (s0 :: sep') (m :: rest')) =
        n :: (m :: rest')
      rw [pySplit_cons_of_splitFirst (by simp) (splitFirst_boundary (hmem n (by simp)))]
      rw [ih (by simp) (fun x hx => hmem x (by simp [hx]))]

/-- `str.split(',')` on names joined by `", "`: the first item is exact,
later items keep their leading space. -/
theorem pySplit_comma_join :
    ∀ (rest : List (List Char)) (pre n : List Char), ',' ∉ pre → ',' ∉ n →
      (∀ m ∈ rest, ',' ∉ m) →
      pySplit [','] (pre ++ joinSep [',', ' '] (n :: rest)) =
        (pre ++ n) :: rest.map (fun m => ' ' :: m) := by
  intro rest
  induction rest with
  | nil =>
    intro pre n hpre hn _
    show pySplit [','] (pre ++ n) = [pre ++ n]
    rw [pySplit_single_of_none (by simp) (splitFirst_none (by
      intro h
      rcases List.mem_append.mp h with h | h
      · exact hpre h
      · exact hn h))]
  | cons m rest' ih =>
    intro pre n hpre hn hmem
    have hjoin : joinSep [',', ' '] (n :: m :: rest') =
        n ++ [','] ++ (' ' :: joinSep [',', ' '] (m :: rest')) := by
      show n ++ [',', ' '] ++ joinSep [',', ' '] (m :: rest') = _
      simp
    rw [hjoin]
    have hassoc : pre ++ (n ++ [','] ++ (' ' :: joinSep [',', ' '] (m :: rest'))) =
        (pre ++ n) ++ ([','] ++ (' ' :: joinSep [',', ' '] (m :: rest'))) := by
      simp
    rw [hassoc]
    have hsplit : splitFirst [','] ((pre ++ n) ++ ([','] ++ (' ' :: joinSep [',', ' '] (m :: rest')))) =
        some (pre ++ n, ' ' :: joinSep [',', ' '] (m :: rest')) := by
      rw [show (pre ++ n) ++ ([','] ++ (' ' :: joinSep [',', ' '] (m :: rest'))) =
        (pre ++ n) ++ ([','] : List Char) ++ (' ' :: joinSep [',', ' '] (m :: rest')) by simp]
      exact splitFirst_boundary (by
        intro h
        rcases List.mem_append.mp h with h | h
        · exact hpre h
        · exact hn h)
    rw [pySplit_cons_of_splitFirst (by simp) hsplit]
    have := ih [' '] m (by simp) (hmem m (by simp)) (fun x hx => hmem x (by simp [hx]))
    rw [show (' ' :: joinSep [',', ' '] (m :: rest')) =
      ([' '] ++ joinSep [',', ' '] (m :: rest')) by simp]
    rw [this]
    simp

end GhPm

namespace GhPm

/-- ASCII letters are none of the structural characters the coercion
inspects. -/
theorem alpha_ne {c : Char} (h : c.isAlpha = true) :
    c ≠ ' ' ∧ c ≠ ',' ∧ c ≠ '[' ∧ c ≠ ']' ∧ c ≠ dquote ∧ c ≠ squote := by
  refine ⟨?_, ?_, ?_, ?_, ?_, ?_⟩ <;> intro heq <;> subst heq <;> revert h <;> decide

/-- An uppercase letter is neither a space nor an opening bracket. -/
theorem upperAlpha_ne {c : Char} (h : isUpperAlpha c = true) :
    c ≠ ' ' ∧ c ≠ '[' := by
  refine ⟨?_, ?_⟩ <;> intro heq <;> subst heq <;> revert h <;> decide

theorem alpha_not_pyWs {c : Char} (h : c.isAlpha = true) : isPyWs c = false := by
  have ha : c ≠ ' ' ∧ c ≠ '\t' ∧ c ≠ '\n' ∧ c ≠ '\r' ∧ c ≠ '\x0b' ∧ c ≠ '\x0c' := by
    refine ⟨?_, ?_, ?_, ?_, ?_, ?_⟩ <;> intro heq <;> subst heq <;> revert h <;> decide
  simp [isPyWs, ha.1, ha.2.1, ha.2.2.1, ha.2.2.2.1, ha.2.2.2.2.1, ha.2.2.2.2.2]

theorem skipWs_cons_ne {c : Char} (h : c ≠ ' ') (l : List Char) :
    skipWs (c :: l) = c :: l := by
  simp [skipWs, List.dropWhile_cons, h]

theorem skipWs_cons_space (l : List Char) : skipWs (' ' :: l) = skipWs l := by
  simp [skipWs, List.dropWhile_cons]

/-- `stripChars` is the identity when neither end satisfies `p`. -/
theorem stripChars_eq_self {p : Char → Bool} {l : List Char}
    (hhead : ∀ c, l.head? = some c → p c = false)
    (hlast : ∀ c, l.getLast? = some c → p c = false) :
    stripChars p l = l := by
  unfold stripChars
  have h1 : l.dropWhile p = l := by
    cases l with
    | nil => rfl
    | cons c t => rw [List.dropWhile_cons, hhead c rfl]; simp
  rw [h1]
  have h2 : l.reverse.dropWhile p = l.reverse := by
    cases hrev : l.reverse with
    | nil => rfl
    | cons c t =>
      have : l.getLast? = some c := by
        rw [← List.head?_reverse, hrev]
        rfl
      rw [List.dropWhile_cons, hlast c this]
      simp
  rw [h2, List.reverse_reverse]

/-- Ends of `joinSep`: the head is the first name's head. -/
theorem joinSep_head (sep : List Char) (n : List Char) (rest : List (List Char))
    (hn : n ≠ []) : (joinSep sep (n :: rest)).head? = n.head? := by
  cases rest with
  | nil => rfl
  | cons m rest' =>
    show (n ++ sep ++ joinSep sep (m :: rest')).head? = n.head?
    cases n with
    | nil => exact absurd rfl hn
    | cons c t => simp

/-- Ends of `joinSep`: the last is the last name's last, when every name is
nonempty. -/
theorem joinSep_getLast (sep : List Char) :
    ∀ (names : List (List Char)), names ≠ [] → (∀ n ∈ names, n ≠ []) →
      ∃ m, names.getLast? = some m ∧
        (joinSep sep names).getLast? = m.getLast? := by
  intro names
  induction names with
  | nil => intro h; exact absurd rfl h
  | cons n rest ih =>
    intro _ hmem
    cases rest with
    | nil => exact ⟨n, rfl, rfl⟩
    | cons m rest' =>
      obtain ⟨last, hlast, hjoin⟩ := ih (by simp) (fun x hx => hmem x (by simp [hx]))
      refine ⟨last, ?_, ?_⟩
      · rw [List.getLast?_cons_cons]
        exact hlast
      · show (n ++ sep ++ joinSep sep (m :: rest')).getLast? = _
        have hne : joinSep sep (m :: rest') ≠ [] := by
          intro hc
          have hm := hmem m (by simp)
          have := joinSep_head sep m rest' hm
          rw [hc] at this
          cases m with
          | nil => exact hm rfl
          | cons c t => simp at this
        rw [List.append_assoc]
        rw [List.getLast?_append_of_ne_nil _ (by simp [hne])]
        rw [List.getLast?_append_of_ne_nil _ hne, hjoin]

end GhPm

namespace GhPm

theorem parseStrItems_space (q : Char) (f : Nat) (l : List Char) :
    parseStrItems q (f + 1) (' ' :: l) = parseStrItems q (f + 1) l := by
  rw [parseStrItems, parseStrItems, skipWs_cons_space]

/-- The quoted-items parser inverts the rendering of a nonempty name
list. -/
theorem parseStrItems_round (q : Char) (hq1 : q ≠ ' ') (hq3 : q ≠ ']')
    (hq4 : q ≠ ',') :
    ∀ (names : List (List Char)) (fuel : Nat), names ≠ [] →
      (∀ n ∈ names, q ∉ n) → names.length ≤ fuel →
      parseStrItems q fuel
          (joinSep [',', ' '] (names.map (quoteItem q)) ++ [']']) =
        some (names.map (fun n => (⟨n⟩ : String)), []) := by
  intro names
  induction names with
  | nil => intro fuel h; exact absurd rfl h
  | cons n rest ih =>
    intro fuel _ hq hfuel
    cases fuel with
    | zero => simp at hfuel
    | succ f =>
      cases rest with
      | nil =>
        show parseStrItems q (f + 1) (quoteItem q n ++ [']']) = some ([⟨n⟩], [])
        have hform : quoteItem q n ++ ([']'] : List Char) =
            q :: (n ++ ([q] : List Char) ++ [']']) := by
          simp [quoteItem]
        rw [parseStrItems, hform, skipWs_cons_ne hq1]
        dsimp only
        rw [if_pos rfl]
        rw [splitFirst_boundary (hq n (by simp))]
        dsimp only
        rw [skipWs_cons_ne (by decide : ']' ≠ ' ')]
        dsimp only
        rw [if_neg (by decide : ¬ (']' : Char) = ','), if_pos rfl]
      | cons m rest' =>
        have hform : joinSep [',', ' ']
              ((n :: m :: rest').map (quoteItem q)) ++ [']'] =
            q :: (n ++ ([q] : List Char) ++ (',' :: ' ' ::
              (joinSep [',', ' '] ((m :: rest').map (quoteItem q)) ++ [']']))) := by
          show quoteItem q n ++ [',', ' '] ++
              joinSep [',', ' '] ((m :: rest').map (quoteItem q)) ++ [']'] = _
          simp [quoteItem]
        rw [hform, parseStrItems, skipWs_cons_ne hq1]
        dsimp only
        rw [if_pos rfl]
        rw [splitFirst_boundary (hq n (by simp))]
        dsimp only
        rw [skipWs_cons_ne (by decide : ',' ≠ ' ')]
        dsimp only
        rw [if_pos rfl]
        cases f with
        | zero => simp at hfuel
        | succ f' =>
          rw [parseStrItems_space]
          rw [ih (f' + 1) (by simp) (fun x hx => hq x (by simp [hx])) (by
            simp only [List.length_cons] at hfuel ⊢
            omega)]
          rfl

/-- Each quoted item occupies at least two characters, so the rendered
item list is long enough to serve as parser fuel. -/
theorem joinSep_quote_length (q : Char) :
    ∀ names : List (List Char),
      names.length ≤ (joinSep [',', ' '] (names.map (quoteItem q))).length + 1 := by
  intro names
  induction names with
  | nil => simp
  | cons n rest ih =>
    cases rest with
    | nil => simp [quoteItem]
    | cons m rest' =>
      show (n :: m :: rest').length ≤
        (quoteItem q n ++ [',', ' '] ++
          joinSep [',', ' '] ((m :: rest').map (quoteItem q))).length + 1
      simp only [List.length_cons, List.length_append, quoteItem] at ih ⊢
      omega

/-- The array parser inverts `renderArray` on names avoiding the quote
character. -/
theorem parseStrArray_round (q : Char) (hq1 : q ≠ ' ') (hq2 : q ≠ '[')
    (hq3 : q ≠ ']') (hq4 : q ≠ ',') (names : List String)
    (hq : ∀ n ∈ names, q ∉ n.data) :
    parseStrArray q (renderArray q names) = some names := by
  cases names with
  | nil => rfl
  | cons n rest =>
    have hdata : (renderArray q (n :: rest)).data =
        '[' :: (joinSep [',', ' '] ((n :: rest).map
          (fun x => quoteItem q x.data)) ++ [']']) := rfl
    obtain ⟨T, hT⟩ : ∃ T, joinSep [',', ' ']
        ((n :: rest).map (fun x => quoteItem q x.data)) ++ [']'] = q :: T := by
      cases rest with
      | nil => exact ⟨(n.data ++ [q]) ++ [']'], rfl⟩
      | cons m rest' =>
        refine ⟨(n.data ++ [q]) ++ ([',', ' '] ++
          (joinSep [',', ' '] ((m :: rest').map (fun x => quoteItem q x.data)) ++ [']'])), ?_⟩
        show quoteItem q n.data ++ [',', ' '] ++ _ ++ [']'] = _
        simp [quoteItem]
    have hlen : (n :: rest).length ≤
        (joinSep [',', ' '] ((n :: rest).map (fun x => quoteItem q x.data)) ++ [']']).length + 1 := by
      have h1 := joinSep_quote_length q ((n :: rest).map String.data)
      have h2 : ((n :: rest).map String.data).map (quoteItem q) =
          (n :: rest).map (fun x => quoteItem q x.data) := by
        simp [List.map_map]
      rw [h2] at h1
      simp only [List.length_map, List.length_cons] at h1
      simp only [List.length_append, List.length_cons]
      omega
    have hitems := parseStrItems_round q hq1 hq3 hq4
      ((n :: rest).map String.data)
      ((joinSep [',', ' '] ((n :: rest).map (fun x => quoteItem q x.data)) ++ [']']).length + 1)
      (by simp)
      (by
        intro x hx
        obtain ⟨s, hs, rfl⟩ := List.mem_map.mp hx
        exact hq s hs)
      (by simpa using hlen)
    have h2 : ((n :: rest).map String.data).map (quoteItem q) =
        (n :: rest).map (fun x => quoteItem q x.data) := by
      simp [List.map_map]
    rw [h2] at hitems
    have h3 : ((n :: rest).map String.data).map (fun l => (⟨l⟩ : String)) = n :: rest := by
      rw [List.map_map]
      rw [show ((fun l => (⟨l⟩ : String)) ∘ String.data) = id from rfl, List.map_id]
    rw [h3] at hitems
    unfold parseStrArray
    rw [hdata, skipWs_cons_ne (by decide : '[' ≠ ' ')]
    dsimp only
    rw [if_pos rfl]
    rw [hT] at hitems ⊢
    rw [skipWs_cons_ne hq1]
    dsimp only
    rw [if_neg hq3]
    rw [hitems]
    rfl

end GhPm

namespace GhPm

theorem mem_of_getLast?_eq {α : Type} {l : List α} {c : α}
    (h : l.getLast? = some c) : c ∈ l := by
  obtain ⟨hne, heq⟩ := List.mem_getLast?_eq_getLast
    (show c ∈ l.getLast? by simp [Option.mem_def, h])
  rw [heq]
  exact List.getLast_mem hne

theorem mem_of_head?_eq {α : Type} {l : List α} {c : α}
    (h : l.head? = some c) : c ∈ l := by
  cases l with
  | nil => simp at h
  | cons a t =>
    simp only [List.head?_cons, Option.some.injEq] at h
    subst h
    simp

/-- A list of letters is untouched by any strip whose predicate rejects
letters. -/
theorem stripChars_alpha {p : Char → Bool} (hp : ∀ c, c.isAlpha = true → p c = false)
    {l : List Char} (h : ∀ c ∈ l, c.isAlpha = true) : stripChars p l = l :=
  stripChars_eq_self
    (fun c hc => hp c (h c (mem_of_head?_eq hc)))
    (fun c hc => hp c (h c (mem_of_getLast?_eq hc)))

theorem dropWhile_eq_self_head {p : Char → Bool} {l : List Char}
    (h : ∀ c, l.head? = some c → p c = false) : l.dropWhile p = l := by
  cases l with
  | nil => rfl
  | cons c t => rw [List.dropWhile_cons, h c rfl]; simp

/-- Stripping whitespace from a space-prefixed all-letter word drops
exactly the space. -/
theorem stripWs_space_cons {m : List Char} (hm : ∀ c ∈ m, c.isAlpha = true) :
    stripChars isPyWs (' ' :: m) = m := by
  unfold stripChars
  rw [List.dropWhile_cons]
  rw [if_pos (by decide : isPyWs ' ' = true)]
  rw [dropWhile_eq_self_head
    (fun c hc => alpha_not_pyWs (hm c (mem_of_head?_eq hc)))]
  rw [dropWhile_eq_self_head (fun c hc => alpha_not_pyWs
    (hm c (List.mem_reverse.mp (mem_of_head?_eq hc))))]
  exact List.reverse_reverse m

/-- `item.strip('"').strip("'")` on an all-letter word. -/
theorem stripQuotes_alpha {l : List Char} (h : ∀ c ∈ l, c.isAlpha = true) :
    stripQuotes l = l := by
  unfold stripQuotes
  rw [stripChars_alpha (fun c hc => by simp [(alpha_ne hc).2.2.2.2.1]) h]
  exact stripChars_alpha (fun c hc => by simp [(alpha_ne hc).2.2.2.2.2]) h

/-- Structure of `simpleName`. -/
theorem simpleName_spec {s : String} (h : simpleName s = true) :
    (∃ c0 r, s.data = c0 :: r ∧ isUpperAlpha c0 = true) ∧
      (∀ c ∈ s.data, c.isAlpha = true) ∧ s.data ≠ [] := by
  unfold simpleName at h
  split at h
  · exact absurd h (by simp)
  · rename_i c0 tail heq
    simp only [Bool.and_eq_true, decide_eq_true_eq] at h
    obtain ⟨⟨⟨⟨⟨⟨h1, h2⟩, -⟩, -⟩, -⟩, -⟩, -⟩ := h
    refine ⟨⟨c0, tail, heq, h1⟩, ?_, by simp [heq]⟩
    intro c hc
    exact List.all_eq_true.mp h2 c hc

end GhPm

namespace GhPm

theorem parseStrArray_none_of_head (q : Char) {s : String} {c0 : Char}
    {r : List Char} (hdata : s.data = c0 :: r) (h1 : c0 ≠ ' ') (h2 : c0 ≠ '[') :
    parseStrArray q s = Option.none := by
  unfold parseStrArray
  rw [hdata, skipWs_cons_ne h1]
  dsimp only
  rw [if_neg h2]

/-- Strings starting with an uppercase letter are rejected by both the
JSON and the Python-literal parser. -/
theorem parsers_none_of_upper_head {s : String} {c0 : Char} {r : List Char}
    (hdata : s.data = c0 :: r) (hup : isUpperAlpha c0 = true) :
    jsonLoads s = Option.none ∧ astLiteralEval s = Option.none := by
  obtain ⟨h1, h2⟩ := upperAlpha_ne hup
  have harr : ∀ q, parseStrArray q s = Option.none := fun q =>
    parseStrArray_none_of_head q hdata h1 h2
  constructor
  · simp [jsonLoads, harr]
  · simp [astLiteralEval, harr]

theorem renderSepList_head (sep : String) (n0 : String) (rest : List String)
    {c0 : Char} {r0 : List Char} (h : n0.data = c0 :: r0) :
    ∃ R, (renderSepList sep (n0 :: rest)).data = c0 :: R := by
  cases rest with
  | nil => exact ⟨r0, by simp [renderSepList, joinSep, h]⟩
  | cons m rest' =>
    refine ⟨r0 ++ sep.data ++ joinSep sep.data ((m :: rest').map String.data), ?_⟩
    show joinSep sep.data (n0.data :: (m :: rest').map String.data) = _
    rw [show joinSep sep.data (n0.data :: (m :: rest').map String.data) =
      n0.data ++ sep.data ++ joinSep sep.data ((m :: rest').map String.data) from by
        show n0.data ++ sep.data ++ _ = _
        rfl, h]
    simp

/-- Both ends of a separator-joined rendering of simple names are
letters. -/
theorem joinSep_ends_alpha (sep : List Char) (names : List String)
    (hne : names ≠ []) (hall : ∀ n ∈ names, simpleName n = true) :
    (∀ c, (joinSep sep (names.map String.data)).head? = some c → c.isAlpha = true) ∧
    (∀ c, (joinSep sep (names.map String.data)).getLast? = some c → c.isAlpha = true) := by
  cases names with
  | nil => exact absurd rfl hne
  | cons n0 rest =>
    constructor
    · intro c hc
      have hn0 := simpleName_spec (hall n0 (by simp))
      rw [List.map_cons, joinSep_head sep n0.data (rest.map String.data) hn0.2.2] at hc
      exact hn0.2.1 c (mem_of_head?_eq hc)
    · intro c hc
      obtain ⟨m, hm, hjoin⟩ := joinSep_getLast sep ((n0 :: rest).map String.data)
        (by simp)
        (by
          intro x hx
          obtain ⟨s, hs, rfl⟩ := List.mem_map.mp hx
          exact (simpleName_spec (hall s hs)).2.2)
      rw [hjoin] at hc
      obtain ⟨s, hs, rfl⟩ := List.mem_map.mp (mem_of_getLast?_eq hm)
      exact (simpleName_spec (hall s hs)).2.1 c (mem_of_getLast?_eq hc)

/-- `.strip()` leaves a rendering of simple names unchanged. -/
theorem pyStripWs_render (sep : String) (names : List String) (hne : names ≠ [])
    (hall : ∀ n ∈ names, simpleName n = true) :
    pyStripWs (renderSepList sep names) = renderSepList sep names := by
  obtain ⟨hh, hl⟩ := joinSep_ends_alpha sep.data names hne hall
  show (⟨stripChars isPyWs (joinSep sep.data (names.map String.data))⟩ : String) = _
  rw [stripChars_eq_self
    (fun c hc => alpha_not_pyWs (hh c hc))
    (fun c hc => alpha_not_pyWs (hl c hc))]
  rfl

end GhPm

namespace GhPm

theorem items_to_records (names : List String) :
    (names.map String.data).map (fun i => PyVal.pdict [("name", PyVal.pstr ⟨i⟩)]) =
      names.map (fun n => PyVal.pdict [("name", PyVal.pstr n)]) := by
  rw [List.map_map]
  rfl

theorem strip_plain_items (names : List String)
    (hall : ∀ n ∈ names, simpleName n = true) :
    (names.map String.data).map (fun item => stripQuotes (stripChars isPyWs item)) =
      names.map String.data := by
  have h : ∀ x ∈ names.map String.data,
      stripQuotes (stripChars isPyWs x) = x := by
    intro x hx
    obtain ⟨s, hs, rfl⟩ := List.mem_map.mp hx
    have hsp := (simpleName_spec (hall s hs)).2.1
    rw [stripChars_alpha (fun c hc => alpha_not_pyWs hc) hsp,
      stripQuotes_alpha hsp]
  calc (names.map String.data).map (fun item => stripQuotes (stripChars isPyWs item))
      = (names.map String.data).map id := List.map_congr_left h
    _ = names.map String.data := List.map_id _

theorem strip_comma_items (n0 : String) (tailNames : List String)
    (hall0 : simpleName n0 = true)
    (halltail : ∀ n ∈ tailNames, simpleName n = true) :
    ((([] : List Char) ++ n0.data) :: (tailNames.map String.data).map (fun m => ' ' :: m)).map
        (fun item => stripQuotes (stripChars isPyWs item)) =
      n0.data :: tailNames.map String.data := by
  have hn0 := (simpleName_spec hall0).2.1
  simp only [List.nil_append, List.map_cons]
  rw [stripChars_alpha (fun c hc => alpha_not_pyWs hc) hn0, stripQuotes_alpha hn0]
  congr 1
  rw [List.map_map]
  have h : ∀ x ∈ tailNames.map String.data,
      ((fun item => stripQuotes (stripChars isPyWs item)) ∘ (fun m => ' ' :: m)) x = x := by
    intro x hx
    obtain ⟨s, hs, rfl⟩ := List.mem_map.mp hx
    have hsp := (simpleName_spec (halltail s hs)).2.1
    show stripQuotes (stripChars isPyWs (' ' :: s.data)) = s.data
    rw [stripWs_space_cons hsp, stripQuotes_alpha hsp]
  calc (tailNames.map String.data).map
        ((fun item => stripQuotes (stripChars isPyWs item)) ∘ (fun m => ' ' :: m))
      = (tailNames.map String.data).map id := List.map_congr_left h
    _ = tailNames.map String.data := List.map_id _

theorem filter_nonempty_names (names : List String)
    (hall : ∀ n ∈ names, simpleName n = true) :
    (names.map String.data).filter (fun i => !i.isEmpty) = names.map String.data := by
  rw [List.filter_eq_self]
  intro a ha
  obtain ⟨s, hs, rfl⟩ := List.mem_map.mp ha
  simp [(simpleName_spec (hall s hs)).2.2]

end GhPm

namespace GhPm

/-- The comma branch of the fallback on `"A, B, ..."` renderings. -/
theorem coerce_cleaned_comma (n0 n1 : String) (rest : List String)
    (hall : ∀ n ∈ n0 :: n1 :: rest, simpleName n = true)
    (hnor : containsSub " or " (pyLower (renderSepList ", " (n0 :: n1 :: rest))) = false)
    (hnand : containsSub " and " (pyLower (renderSepList ", " (n0 :: n1 :: rest))) = false) :
    coerce_cleaned (renderSepList ", " (n0 :: n1 :: rest)) =
      .plist ((n0 :: n1 :: rest).map (fun n => .pdict [("name", .pstr n)])) := by
  have hn0 := simpleName_spec (hall n0 (by simp))
  have hshape : (renderSepList ", " (n0 :: n1 :: rest)).data =
      n0.data ++ ([','] : List Char) ++
        (' ' :: joinSep [',', ' '] ((n1 :: rest).map String.data)) := by
    show joinSep [',', ' '] ((n0 :: n1 :: rest).map String.data) = _
    rw [show (n0 :: n1 :: rest).map String.data =
      n0.data :: n1.data :: rest.map String.data from rfl]
    show n0.data ++ [',', ' '] ++ joinSep [',', ' '] (n1.data :: rest.map String.data) = _
    simp
  have hcomma : containsSub "," (renderSepList ", " (n0 :: n1 :: rest)) = true := by
    unfold containsSub
    rw [hshape]
    rw [show ((",").data : List Char) = [','] from rfl]
    rw [splitFirst_boundary (fun hmem => absurd rfl (alpha_ne (hn0.2.1 ',' hmem)).2.1)]
    rfl
  unfold coerce_cleaned
  rw [hnor, hnand]
  rw [if_neg (by simp)]
  rw [hcomma]
  rw [if_pos rfl]
  dsimp only
  have hdata2 : (renderSepList ", " (n0 :: n1 :: rest)).data =
      ([] : List Char) ++ joinSep [',', ' '] (n0.data :: (n1 :: rest).map String.data) := by
    simp [renderSepList]
  rw [hdata2]
  rw [pySplit_comma_join ((n1 :: rest).map String.data) [] n0.data (by simp)
    (fun hmem => absurd rfl (alpha_ne (hn0.2.1 ',' hmem)).2.1)
    (by
      intro m hm hmem
      obtain ⟨s, hs, rfl⟩ := List.mem_map.mp hm
      exact absurd rfl
        (alpha_ne ((simpleName_spec (hall s (by simp [hs]))).2.1 ',' hmem)).2.1)]
  rw [strip_comma_items n0 (n1 :: rest) (hall n0 (by simp))
    (fun x hx => hall x (by simp [hx]))]
  rw [show (n0.data :: (n1 :: rest).map String.data) =
    (n0 :: n1 :: rest).map String.data from rfl]
  rw [filter_nonempty_names _ hall]
  rw [items_to_records]

/-- The `" or "` branch of the fallback. -/
theorem coerce_cleaned_or (names : List String) (hne : names ≠ [])
    (hall : ∀ n ∈ names, simpleName n = true)
    (hor : containsSub " or " (pyLower (renderSepList " or " names)) = true) :
    coerce_cleaned (renderSepList " or " names) =
      .plist (names.map (fun n => .pdict [("name", .pstr n)])) := by
  unfold coerce_cleaned
  rw [hor]
  rw [if_pos (by simp)]
  dsimp only
  rw [if_pos rfl]
  rw [show (renderSepList " or " names).data =
    joinSep ((" or ").data) (names.map String.data) from rfl]
  rw [show ((" or ").data : List Char) = ' ' :: ['o', 'r', ' '] from rfl]
  rw [pySplit_joinSep ' ' ['o', 'r', ' '] (names.map String.data)
    (by simp [hne])
    (by
      intro x hx hmem
      obtain ⟨s, hs, rfl⟩ := List.mem_map.mp hx
      exact absurd rfl (alpha_ne ((simpleName_spec (hall s hs)).2.1 ' ' hmem)).1)]
  rw [strip_plain_items names hall]
  rw [filter_nonempty_names _ hall]
  rw [items_to_records]

/-- The `" and "` branch of the fallback. -/
theorem coerce_cleaned_and (names : List String) (hne : names ≠ [])
    (hall : ∀ n ∈ names, simpleName n = true)
    (hnor : containsSub " or " (pyLower (renderSepList " and " names)) = false)
    (hand : containsSub " and " (pyLower (renderSepList " and " names)) = true) :
    coerce_cleaned (renderSepList " and " names) =
      .plist (names.map (fun n => .pdict [("name", .pstr n)])) := by
  unfold coerce_cleaned
  rw [hnor, hand]
  rw [if_pos (by simp)]
  dsimp only
  rw [if_neg (by simp)]
  rw [show (renderSepList " and " names).data =
    joinSep ((" and ").data) (names.map String.data) from rfl]
  rw [show ((" and ").data : List Char) = ' ' :: ['a', 'n', 'd', ' '] from rfl]
  rw [pySplit_joinSep ' ' ['a', 'n', 'd', ' '] (names.map String.data)
    (by simp [hne])
    (by
      intro x hx hmem
      obtain ⟨s, hs, rfl⟩ := List.mem_map.mp hx
      exact absurd rfl (alpha_ne ((simpleName_spec (hall s hs)).2.1 ' ' hmem)).1)]
  rw [strip_plain_items names hall]
  rw [filter_nonempty_names _ hall]
  rw [items_to_records]

/-- The single-option branch of the fallback. -/
theorem coerce_cleaned_single (n : String) (hn : simpleName n = true)
    (hnor : containsSub " or " (pyLower n) = false)
    (hnand : containsSub " and " (pyLower n) = false) :
    coerce_cleaned n = .plist [.pdict [("name", .pstr n)]] := by
  have hs := simpleName_spec hn
  unfold coerce_cleaned
  rw [hnor, hnand]
  rw [if_neg (by simp)]
  have hcomma : containsSub "," n = false := by
    unfold containsSub
    rw [show ((",").data : List Char) = [','] from rfl]
    rw [splitFirst_none (fun hmem => absurd rfl (alpha_ne (hs.2.1 ',' hmem)).2.1)]
    rfl
  rw [hcomma]
  rw [if_neg (by simp)]
  dsimp only
  rw [stripChars_alpha (fun c hc => by
    simp [(alpha_ne hc).2.2.1, (alpha_ne hc).2.2.2.1]) hs.2.1]
  rw [stripChars_alpha (fun c hc => alpha_not_pyWs hc) hs.2.1]
  rw [stripQuotes_alpha hs.2.1]
  rw [if_neg (by simp [hs.2.2])]

end GhPm

namespace GhPm

/-- A single-quoted rendering is rejected by a double-quote parser (and
vice versa). -/
theorem parseStrArray_quote_mismatch (q q' : Char) (hq1 : q ≠ ' ')
    (hq3 : q ≠ ']') (hne : q ≠ q') (names : List String)
    (hnames : names ≠ []) :
    parseStrArray q' (renderArray q names) = Option.none := by
  cases names with
  | nil => exact absurd rfl hnames
  | cons n rest =>
    have hdata : (renderArray q (n :: rest)).data =
        '[' :: (joinSep [',', ' '] ((n :: rest).map
          (fun x => quoteItem q x.data)) ++ [']']) := rfl
    obtain ⟨T, hT⟩ : ∃ T, joinSep [',', ' ']
        ((n :: rest).map (fun x => quoteItem q x.data)) ++ [']'] = q :: T := by
      cases rest with
      | nil => exact ⟨(n.data ++ [q]) ++ [']'], rfl⟩
      | cons m rest' =>
        refine ⟨(n.data ++ [q]) ++ ([',', ' '] ++
          (joinSep [',', ' '] ((m :: rest').map (fun x => quoteItem q x.data)) ++ [']'])), ?_⟩
        show quoteItem q n.data ++ [',', ' '] ++ _ ++ [']'] = _
        simp [quoteItem]
    unfold parseStrArray
    rw [hdata, skipWs_cons_ne (by decide : '[' ≠ ' ')]
    dsimp only
    rw [if_pos rfl]
    rw [hT, skipWs_cons_ne hq1]
    dsimp only
    rw [if_neg hq3]
    rw [parseStrItems, skipWs_cons_ne hq1]
    dsimp only
    rw [if_neg hne]

/-- When the input is already stripped and contains no arrow, the fallback
is exactly the separator-based parse. -/
theorem heuristic_no_arrow (s : String) (hstrip : pyStripWs s = s)
    (hnarrow : containsSub " -> " s = false) :
    coerce_options_heuristic s = coerce_cleaned s := by
  unfold coerce_options_heuristic
  dsimp only
  rw [hstrip, hnarrow]
  simp

/-- An arrow-annotated string is cut after the first `" -> "` and the
remainder is parsed by the separator-based parse. -/
theorem heuristic_arrow (label : String) (tail : String)
    (hlab : simpleName label = true) (hne : tail.data ≠ [])
    (hhead : ∀ c, tail.data.head? = some c → c.isAlpha = true)
    (hlast : ∀ c, tail.data.getLast? = some c → c.isAlpha = true) :
    coerce_options_heuristic ⟨label.data ++ (" -> ").data ++ tail.data⟩ =
      coerce_cleaned tail := by
  have hl := simpleName_spec hlab
  have hstrip : pyStripWs ⟨label.data ++ (" -> ").data ++ tail.data⟩ =
      ⟨label.data ++ (" -> ").data ++ tail.data⟩ := by
    show (⟨stripChars isPyWs (label.data ++ (" -> ").data ++ tail.data)⟩ : String) = _
    rw [stripChars_eq_self]
    · intro c hc
      cases hld : label.data with
      | nil => exact absurd hld hl.2.2
      | cons c0 r0 =>
        have heq : (label.data ++ (" -> ").data ++ tail.data).head? = some c0 := by
          rw [hld]; rfl
        rw [heq] at hc
        injection hc with h
        have ha : isPyWs c0 = false :=
          alpha_not_pyWs (hl.2.1 c0 (by rw [hld]; exact List.mem_cons_self _ _))
        exact h ▸ ha
    · intro c hc
      rw [List.append_assoc, List.getLast?_append_of_ne_nil _ (by
        intro hcon
        rcases List.append_eq_nil.mp hcon with ⟨-, h2⟩
        exact hne h2)] at hc
      rw [List.getLast?_append_of_ne_nil _ hne] at hc
      exact alpha_not_pyWs (hlast c hc)
  have hsplit : splitFirst ((" -> ").data) (label.data ++ (" -> ").data ++ tail.data) =
      some (label.data, tail.data) := by
    rw [show ((" -> ").data : List Char) = ' ' :: ['-', '>', ' '] from rfl]
    exact splitFirst_boundary (fun hmem => absurd rfl (alpha_ne (hl.2.1 ' ' hmem)).1)
  have harrow : containsSub " -> " ⟨label.data ++ (" -> ").data ++ tail.data⟩ = true := by
    unfold containsSub
    show (splitFirst ((" -> ").data) (label.data ++ (" -> ").data ++ tail.data)).isSome = true
    rw [hsplit]
    rfl
  have htail : pyStripWs ⟨tail.data⟩ = tail := by
    show (⟨stripChars isPyWs tail.data⟩ : String) = tail
    rw [stripChars_eq_self (fun c hc => alpha_not_pyWs (hhead c hc))
      (fun c hc => alpha_not_pyWs (hlast c hc))]
  unfold coerce_options_heuristic
  dsimp only
  rw [hstrip, harrow]
  simp only [if_true]
  rw [show splitFirst [' ', '-', '>', ' '] (label.data ++ [' ', '-', '>', ' '] ++ tail.data) =
    some (label.data, tail.data) from hsplit]
  dsimp only
  rw [htail]

end GhPm

namespace GhPm

/-- C3 counterexample: the JSON array string is a supported shape, yet the
`json.loads` result is stored as-is, so the coerced value is a list of bare
strings, not `{name: str}` records. -/
theorem coerce_options_json_counterexample :
    coerce_options (.pstr "[\"High\", \"Medium\"]") =
      .plist [.pstr "High", .pstr "Medium"] ∧
    ¬ isNameRecordList (.plist [.pstr "High", .pstr "Medium"]) := by
  constructor
  · rfl
  · rintro (h | ⟨xs, hxs, hall⟩)
    · exact PyVal.noConfusion h
    · injection hxs with h2
      subst h2
      obtain ⟨fs, s, heq, -⟩ := hall (.pstr "High") (by simp)
      exact PyVal.noConfusion heq

/-- C3 (amended): the `options` coercion step never raises; `None` passes
through, JSON and Python-literal array strings are stored exactly as
parsed (lists of bare strings), the natural-language fallback shapes
(single bare name, comma-separated, `or`/`and`-separated, arrow-annotated)
produce `{name: str}` records, and a list input is normalized element-wise
to dicts holding a `name` key. -/
theorem coerce_options_shapes :
    (coerce_options .none = .none) ∧
    (∀ names : List String, names ≠ [] → (∀ n ∈ names, simpleName n = true) →
      coerce_options (.pstr (renderArray dquote names)) =
        .plist (names.map .pstr)) ∧
    (∀ names : List String, names ≠ [] → (∀ n ∈ names, simpleName n = true) →
      coerce_options (.pstr (renderArray squote names)) =
        .plist (names.map .pstr)) ∧
    (∀ n : String, simpleName n = true →
      containsSub " or " (pyLower n) = false →
      containsSub " and " (pyLower n) = false →
      coerce_options (.pstr n) = .plist [.pdict [("name", .pstr n)]]) ∧
    (∀ (n0 n1 : String) (rest : List String),
      (∀ n ∈ n0 :: n1 :: rest, simpleName n = true) →
      containsSub " or " (pyLower (renderSepList ", " (n0 :: n1 :: rest))) = false →
      containsSub " and " (pyLower (renderSepList ", " (n0 :: n1 :: rest))) = false →
      containsSub " -> " (renderSepList ", " (n0 :: n1 :: rest)) = false →
      coerce_options (.pstr (renderSepList ", " (n0 :: n1 :: rest))) =
        .plist ((n0 :: n1 :: rest).map (fun n => .pdict [("name", .pstr n)]))) ∧
    (∀ names : List String, names ≠ [] → (∀ n ∈ names, simpleName n = true) →
      containsSub " or " (pyLower (renderSepList " or " names)) = true →
      containsSub " -> " (renderSepList " or " names) = false →
      coerce_options (.pstr (renderSepList " or " names)) =
        .plist (names.map (fun n => .pdict [("name", .pstr n)]))) ∧
    (∀ names : List String, names ≠ [] → (∀ n ∈ names, simpleName n = true) →
      containsSub " or " (pyLower (renderSepList " and " names)) = false →
      containsSub " and " (pyLower (renderSepList " and " names)) = true →
      containsSub " -> " (renderSepList " and " names) = false →
      coerce_options (.pstr (renderSepList " and " names)) =
        .plist (names.map (fun n => .pdict [("name", .pstr n)]))) ∧
    (∀ (label n0 n1 : String) (rest : List String), simpleName label = true →
      (∀ n ∈ n0 :: n1 :: rest, simpleName n = true) →
      containsSub " or " (pyLower (renderSepList ", " (n0 :: n1 :: rest))) = false →
      containsSub " and " (pyLower (renderSepList ", " (n0 :: n1 :: rest))) = false →
      coerce_options (.pstr ⟨label.data ++ (" -> ").data ++
          (renderSepList ", " (n0 :: n1 :: rest)).data⟩) =
        .plist ((n0 :: n1 :: rest).map (fun n => .pdict [("name", .pstr n)]))) ∧
    (∀ xs : List PyVal, coerce_options (.plist xs) = .plist (xs.map coerceListElem) ∧
      ∀ x ∈ xs, ∃ fs, coerceListElem x = .pdict fs ∧
        (fs.lookup "name").isSome = true) := by
  refine ⟨rfl, ?_, ?_, ?_, ?_, ?_, ?_, ?_, ?_⟩
  · intro names hne hall
    unfold coerce_options
    dsimp only
    rw [show jsonLoads (renderArray dquote names) =
        some (.plist (names.map .pstr)) from by
      unfold jsonLoads
      rw [parseStrArray_round dquote (by decide) (by decide) (by decide)
        (by decide) names (fun n hn hmem => absurd rfl
          (alpha_ne ((simpleName_spec (hall n hn)).2.1 dquote hmem)).2.2.2.2.1)]
      rfl]
  · intro names hne hall
    unfold coerce_options
    dsimp only
    rw [show jsonLoads (renderArray squote names) = Option.none from by
      unfold jsonLoads
      rw [parseStrArray_quote_mismatch squote dquote (by decide) (by decide)
        (by decide) names hne]
      rfl]
    dsimp only
    rw [show astLiteralEval (renderArray squote names) =
        some (.plist (names.map .pstr)) from by
      unfold astLiteralEval
      rw [parseStrArray_round squote (by decide) (by decide) (by decide)
        (by decide) names (fun n hn hmem => absurd rfl
          (alpha_ne ((simpleName_spec (hall n hn)).2.1 squote hmem)).2.2.2.2.2)]]
  · intro n hn hnor hnand
    obtain ⟨⟨c0, r, hdata, hup⟩, halpha, hne0⟩ := simpleName_spec hn
    obtain ⟨hj, ha⟩ := parsers_none_of_upper_head hdata hup
    have hstrip : pyStripWs n = n := by
      show (⟨stripChars isPyWs n.data⟩ : String) = n
      rw [stripChars_alpha (fun c hc => alpha_not_pyWs hc) halpha]
    have hnarrow : containsSub " -> " n = false := by
      unfold containsSub
      rw [show ((" -> ").data : List Char) = ' ' :: ['-', '>', ' '] from rfl]
      rw [splitFirst_none (fun hmem => absurd rfl (alpha_ne (halpha ' ' hmem)).1)]
      rfl
    unfold coerce_options
    dsimp only
    rw [hj]
    dsimp only
    rw [ha]
    dsimp only
    rw [heuristic_no_arrow n hstrip hnarrow, coerce_cleaned_single n hn hnor hnand]
  · intro n0 n1 rest hall hnor hnand hnarrow
    obtain ⟨⟨c0, r0, hd0, hup⟩, -, -⟩ := simpleName_spec (hall n0 (by simp))
    obtain ⟨R, hR⟩ := renderSepList_head ", " n0 (n1 :: rest) hd0
    obtain ⟨hj, ha⟩ := parsers_none_of_upper_head hR hup
    unfold coerce_options
    dsimp only
    rw [hj]
    dsimp only
    rw [ha]
    dsimp only
    rw [heuristic_no_arrow _ (pyStripWs_render ", " (n0 :: n1 :: rest)
        (by simp) hall) hnarrow,
      coerce_cleaned_comma n0 n1 rest hall hnor hnand]
  · intro names hne hall hor hnarrow
    cases names with
    | nil => exact absurd rfl hne
    | cons n0 rest =>
      obtain ⟨⟨c0, r0, hd0, hup⟩, -, -⟩ := simpleName_spec (hall n0 (by simp))
      obtain ⟨R, hR⟩ := renderSepList_head " or " n0 rest hd0
      obtain ⟨hj, ha⟩ := parsers_none_of_upper_head hR hup
      unfold coerce_options
      dsimp only
      rw [hj]
      dsimp only
      rw [ha]
      dsimp only
      rw [heuristic_no_arrow _ (pyStripWs_render " or " (n0 :: rest)
          (by simp) hall) hnarrow,
        coerce_cleaned_or (n0 :: rest) (by simp) hall hor]
  · intro names hne hall hnor hand hnarrow
    cases names with
    | nil => exact absurd rfl hne
    | cons n0 rest =>
      obtain ⟨⟨c0, r0, hd0, hup⟩, -, -⟩ := simpleName_spec (hall n0 (by simp))
      obtain ⟨R, hR⟩ := renderSepList_head " and " n0 rest hd0
      obtain ⟨hj, ha⟩ := parsers_none_of_upper_head hR hup
      unfold coerce_options
      dsimp only
      rw [hj]
      dsimp only
      rw [ha]
      dsimp only
      rw [heuristic_no_arrow _ (pyStripWs_render " and " (n0 :: rest)
          (by simp) hall) hnarrow,
        coerce_cleaned_and (n0 :: rest) (by simp) hall hnor hand]
  · intro label n0 n1 rest hlab hall hnor hnand
    obtain ⟨⟨c0, r0, hld, hup⟩, hlalpha, hlne⟩ := simpleName_spec hlab
    have hR : (⟨label.data ++ (" -> ").data ++
        (renderSepList ", " (n0 :: n1 :: rest)).data⟩ : String).data =
        c0 :: (r0 ++ (" -> ").data ++
          (renderSepList ", " (n0 :: n1 :: rest)).data) := by
      show label.data ++ _ ++ _ = _
      rw [hld]
      simp
    obtain ⟨hj, ha⟩ := parsers_none_of_upper_head hR hup
    have hends := joinSep_ends_alpha ((", ").data) (n0 :: n1 :: rest) (by simp) hall
    have hne2 : (renderSepList ", " (n0 :: n1 :: rest)).data ≠ [] := by
      have hhd : (renderSepList ", " (n0 :: n1 :: rest)).data.head? =
          n0.data.head? := by
        show (joinSep ((", ").data) ((n0 :: n1 :: rest).map String.data)).head? = _
        exact joinSep_head _ _ _ (simpleName_spec (hall n0 (by simp))).2.2
      intro hcon
      rw [hcon] at hhd
      obtain ⟨c0x, r0x, hd0x, -⟩ := (simpleName_spec (hall n0 (by simp))).1
      rw [hd0x] at hhd
      simp at hhd
    unfold coerce_options
    dsimp only
    rw [hj]
    dsimp only
    rw [ha]
    dsimp only
    rw [heuristic_arrow label (renderSepList ", " (n0 :: n1 :: rest)) hlab hne2
        (fun c hc => hends.1 c hc) (fun c hc => hends.2 c hc),
      coerce_cleaned_comma n0 n1 rest hall hnor hnand]
  · intro xs
    refine ⟨rfl, ?_⟩
    intro x hx
    cases x with
    | pdict fs =>
      by_cases h : (fs.lookup "name").isSome
      · exact ⟨fs, by simp [coerceListElem, h], h⟩
      · refine ⟨[("name", .pstr (pyStr (.pdict fs)))], ?_, by simp⟩
        simp only [coerceListElem]
        rw [if_neg h]
    | pstr s => exact ⟨[("name", .pstr s)], rfl, by simp⟩
    | none => exact ⟨[("name", .pstr (pyStr .none))], rfl, by simp⟩
    | pbool b => exact ⟨[("name", .pstr (pyStr (.pbool b)))], rfl, by simp⟩
    | pint n => exact ⟨[("name", .pstr (pyStr (.pint n)))], rfl, by simp⟩
    | plist ys => exact ⟨[("name", .pstr (pyStr (.plist ys)))], rfl, by simp⟩

/-- Witness: concrete coercions for each supported shape. -/
theorem coerce_options_shapes_witness :
    coerce_options (.pstr (renderArray dquote ["High", "Medium"])) =
      .plist [.pstr "High", .pstr "Medium"] ∧
    coerce_options (.pstr (renderArray squote ["High", "Medium"])) =
      .plist [.pstr "High", .pstr "Medium"] ∧
    coerce_options (.pstr "Urgent") = .plist [.pdict [("name", .pstr "Urgent")]] ∧
    coerce_options (.pstr (renderSepList ", " ["High", "Medium", "Low"])) =
      .plist [.pdict [("name", .pstr "High")], .pdict [("name", .pstr "Medium")],
        .pdict [("name", .pstr "Low")]] ∧
    coerce_options (.pstr (renderSepList " or " ["High", "Low"])) =
      .plist [.pdict [("name", .pstr "High")], .pdict [("name", .pstr "Low")]] ∧
    coerce_options (.pstr (renderSepList " and " ["High", "Low"])) =
      .plist [.pdict [("name", .pstr "High")], .pdict [("name", .pstr "Low")]] ∧
    coerce_options (.pstr ⟨("Priority").data ++ (" -> ").data ++
        (renderSepList ", " ["High", "Medium", "Low"]).data⟩) =
      .plist [.pdict [("name", .pstr "High")], .pdict [("name", .pstr "Medium")],
        .pdict [("name", .pstr "Low")]] ∧
    coerce_options (.plist [.pstr "High"]) =
      .plist [.pdict [("name", .pstr "High")]] := by
  obtain ⟨h1, h2, h3, h4, h5, h6, h7, h8, h9⟩ := coerce_options_shapes
  exact ⟨h2 ["High", "Medium"] (by decide) (by decide),
    h3 ["High", "Medium"] (by decide) (by decide),
    h4 "Urgent" (by decide) (by decide) (by decide),
    h5 "High" "Medium" ["Low"] (by decide) (by decide) (by decide) (by decide),
    h6 ["High", "Low"] (by decide) (by decide) (by decide) (by decide),
    h7 ["High", "Low"] (by decide) (by decide) (by decide) (by decide) (by decide),
    h8 "Priority" "High" "Medium" ["Low"] (by decide) (by decide) (by decide)
      (by decide),
    (h9 [.pstr "High"]).1⟩

end GhPm
